import Mathlib

/-!
# Verification of the picon link-maker (mk_links.py)

A shallow embedding of the core of mk_links.py: the icon-inventory scan
(_makePiconFileList), the existing-link scan (_cleanWrongLinks), the
service-reference expansion rules and the reconciliation loop (makeLinks),
and the cleanup passes (_clean / clean).

The filesystem namespace of one output directory is modelled as an
association list from entry names to entry descriptions; the icon
directory (channel_picons) is a separate, static listing.  Link identity
(st_dev, st_ino) is an opaque pair of naturals.  All paths handled by the
program are of the form join(piconPath, name) for a fixed output
directory piconPath, so entries are keyed by name alone.

Environmental failures of os.link / os.symlink (permissions, cross-device
hard links) are modelled by an oracle indexed by the running count of
creation attempts; os.remove is modelled as succeeding (the targets it is
applied to exist; non-removable entries such as directories are outside
the model).  Python exceptions raised by int() / list indexing / unbound
locals during record expansion are modelled with an explicit error type
that aborts the run, as the source has no handler for them.
-/

namespace MkLinks

/-! ## Association lists (Python dict / directory listing) -/

def lookupA {α : Type} (l : List (String × α)) (k : String) : Option α :=
  match l with
  | [] => none
  | (k', v) :: rest => if k' = k then some v else lookupA rest k

def eraseA {α : Type} (l : List (String × α)) (k : String) : List (String × α) :=
  match l with
  | [] => []
  | p :: rest => if p.1 = k then eraseA rest k else p :: eraseA rest k

def setA {α : Type} (l : List (String × α)) (k : String) (v : α) : List (String × α) :=
  (k, v) :: eraseA l k

def keysA {α : Type} (l : List (String × α)) : List String :=
  l.map Prod.fst

theorem lookupA_eraseA_self {α : Type} (l : List (String × α)) (k : String) :
    lookupA (eraseA l k) k = none := by
  induction l with
  | nil => rfl
  | cons p rest ih =>
    by_cases h : p.1 = k
    · simpa [eraseA, h] using ih
    · simpa [eraseA, lookupA, h] using ih

theorem lookupA_eraseA_ne {α : Type} (l : List (String × α)) (k k' : String) (h : k ≠ k') :
    lookupA (eraseA l k) k' = lookupA l k' := by
  induction l with
  | nil => rfl
  | cons p rest ih =>
    by_cases hp : p.1 = k
    · have hp' : ¬ p.1 = k' := by rw [hp]; exact h
      rw [show eraseA (p :: rest) k = eraseA rest k from by simp [eraseA, hp]]
      rw [ih]
      simp [lookupA, hp']
    · rw [show eraseA (p :: rest) k = p :: eraseA rest k from by simp [eraseA, hp]]
      by_cases hq : p.1 = k'
      · simp [lookupA, hq]
      · simp [lookupA, hq, ih]

theorem lookupA_setA_self {α : Type} (l : List (String × α)) (k : String) (v : α) :
    lookupA (setA l k v) k = some v := by
  simp [setA, lookupA]

theorem lookupA_setA_ne {α : Type} (l : List (String × α)) (k k' : String) (v : α)
    (h : k ≠ k') : lookupA (setA l k v) k' = lookupA l k' := by
  simp [setA, lookupA, fun hh => h hh, lookupA_eraseA_ne l k k' h]

theorem lookupA_none_not_mem {α : Type} (l : List (String × α)) (k : String)
    (h : lookupA l k = none) : k ∉ keysA l := by
  induction l with
  | nil => simp [keysA]
  | cons p rest ih =>
    by_cases hp : p.1 = k
    · simp [lookupA, hp] at h
    · simp only [lookupA, hp, if_false] at h
      simpa [keysA, Ne.symm hp] using ih h

theorem lookupA_some_mem {α : Type} (l : List (String × α)) (k : String) (v : α) :
    lookupA l k = some v → k ∈ keysA l := by
  induction l with
  | nil => intro h; simp [lookupA] at h
  | cons p rest ih =>
    intro h
    by_cases hp : p.1 = k
    · simp [keysA, hp]
    · simp only [lookupA, hp, if_false] at h
      simp only [keysA, List.map_cons, List.mem_cons]
      exact Or.inr (ih h)

theorem mem_keys_eraseA {α : Type} (l : List (String × α)) (k x : String) :
    x ∈ keysA (eraseA l k) → x ∈ keysA l := by
  induction l with
  | nil => intro h; simpa [eraseA, keysA] using h
  | cons p rest ih =>
    intro h
    by_cases hp : p.1 = k
    · simp only [eraseA, hp, if_true] at h
      simp only [keysA, List.map_cons, List.mem_cons]
      exact Or.inr (ih h)
    · simp only [eraseA, hp, if_false, keysA, List.map_cons, List.mem_cons] at h ⊢
      rcases h with h | h
      · exact Or.inl h
      · exact Or.inr (ih h)

theorem nodup_eraseA {α : Type} (l : List (String × α)) (k : String)
    (h : (keysA l).Nodup) : (keysA (eraseA l k)).Nodup := by
  induction l with
  | nil => simpa [eraseA, keysA] using h
  | cons p rest ih =>
    simp only [keysA, List.map_cons, List.nodup_cons] at h
    by_cases hp : p.1 = k
    · simpa [eraseA, hp] using ih h.2
    · simp only [eraseA, hp, if_false, keysA, List.map_cons, List.nodup_cons]
      exact ⟨fun hm => h.1 (mem_keys_eraseA rest k p.1 hm), ih h.2⟩

theorem not_mem_keys_eraseA {α : Type} (l : List (String × α)) (k : String) :
    k ∉ keysA (eraseA l k) := by
  induction l with
  | nil => simp [eraseA, keysA]
  | cons p rest ih =>
    by_cases hp : p.1 = k
    · simpa [eraseA, hp] using ih
    · simpa [eraseA, hp, keysA, List.mem_cons, Ne.symm hp] using ih

theorem eraseA_of_lookupA_none {α : Type} (l : List (String × α)) (k : String)
    (h : lookupA l k = none) : eraseA l k = l := by
  induction l with
  | nil => rfl
  | cons p rest ih =>
    by_cases hp : p.1 = k
    · rw [lookupA, if_pos hp] at h
      exact Option.noConfusion h
    · rw [lookupA, if_neg hp] at h
      rw [eraseA, if_neg hp, ih h]

theorem nodup_setA {α : Type} (l : List (String × α)) (k : String) (v : α)
    (h : (keysA l).Nodup) : (keysA (setA l k v)).Nodup := by
  simp only [setA, keysA, List.map_cons, List.nodup_cons]
  exact ⟨not_mem_keys_eraseA l k, nodup_eraseA l k h⟩

/-! ## Link identity and filesystem entries -/

/-- (st_dev, st_ino), the identity `LinkMaker.getLinkRef` computes. -/
abbrev Ident := Nat × Nat

/-- One entry of the output directory namespace.
* `file i`: a regular file with hard-link count 1 and stat identity `i`
* `hlink i`: a regular file with hard-link count > 1 and stat identity `i`
* `slink r`: a symbolic link; `r` is the stat identity of its resolved
  target, or `none` for a dangling link (stat raises)
* `other`: an existing entry that is neither (directory etc.) -/
inductive Entry
  | file (ident : Ident)
  | hlink (ident : Ident)
  | slink (res : Option Ident)
  | other
deriving DecidableEq

/-- The output directory: names mapped to entries (listdir order). -/
abbrev FS := List (String × Entry)

/-- Classification codes of LinkMaker.refType. -/
inductive FType
  | isFile | isHLink | isSLink | isOther | isError
deriving DecidableEq

/-- LinkMaker.refType on a present entry: os.path.islink first, then
os.path.isfile with an st_nlink test.  (IS_ERROR arises only from stat
failures, which the model does not produce.) -/
def entryRefType (e : Entry) : FType :=
  match e with
  | .slink _ => .isSLink
  | .file _ => .isFile
  | .hlink _ => .isHLink
  | .other => .isOther

/-- LinkMaker.refType at a path of the output directory.  A missing path
has islink and isfile false, hence IS_OTHER. -/
def refType (fs : FS) (n : String) : FType :=
  match lookupA fs n with
  | some e => entryRefType e
  | none => .isOther

/-- os.stat identity of an entry (follows symbolic links); `none` when
stat would raise (dangling link).  Only invoked on link-kind entries. -/
def entryLinkRef (e : Entry) : Option Ident :=
  match e with
  | .file i => some i
  | .hlink i => some i
  | .slink r => r
  | .other => none

/-- os.path.exists: follows symbolic links. -/
def pathExists (fs : FS) (n : String) : Bool :=
  match lookupA fs n with
  | some (.slink none) => false
  | some _ => true
  | none => false

/-- os.path.lexists: true for any present entry, dangling links included. -/
def pathLexists (fs : FS) (n : String) : Bool :=
  (lookupA fs n).isSome

/-- The entry os.link / os.symlink creates at the target: a hard link
shares the icon's stat identity with st_nlink > 1; a symbolic link to the
icon resolves to the icon's stat identity. -/
def mkLinkEntry (useHardLinks : Bool) (ref : Ident) : Entry :=
  if useHardLinks then .hlink ref else .slink (some ref)

/-- os.remove inside the output directory (cf. LinkMaker._clean and the
pre-link removal in makeLinks). -/
def fsErase (fs : FS) (n : String) : FS := eraseA fs n

def fsSet (fs : FS) (n : String) (e : Entry) : FS := setA fs n e

/-- Removing a list of names (LinkMaker._clean). -/
def removeAll (fs : FS) (ns : List String) : FS := ns.foldl fsErase fs

theorem removeAll_cons (fs : FS) (n : String) (ns : List String) :
    removeAll fs (n :: ns) = removeAll (fsErase fs n) ns := rfl

theorem lookupA_removeAll (fs : FS) (ns : List String) (t : String) :
    lookupA (removeAll fs ns) t = if t ∈ ns then none else lookupA fs t := by
  induction ns generalizing fs with
  | nil => simp [removeAll]
  | cons n rest ih =>
    rw [removeAll_cons, ih (fsErase fs n)]
    by_cases h : t = n
    · subst h
      by_cases hr : t ∈ rest <;>
        simp [hr, fsErase, lookupA_eraseA_self]
    · by_cases hr : t ∈ rest <;>
        simp [hr, h, fsErase, lookupA_eraseA_ne fs n t (fun hh => h hh.symm)]

theorem nodup_removeAll (fs : FS) (ns : List String)
    (h : (keysA fs).Nodup) : (keysA (removeAll fs ns)).Nodup := by
  induction ns generalizing fs with
  | nil => simpa [removeAll]
  | cons n rest ih =>
    rw [removeAll_cons]
    exact ih (fsErase fs n) (nodup_eraseA fs n h)

/-! ## Python primitive modelling: int(), int(,16), os.path.splitext,
str.split, rfind -/

/-- Splitting a character list at every separator character, keeping
empty pieces (Python str.split(sep) for a one-character separator). -/
def splitOnChar (c : Char) : List Char → List (List Char)
  | [] => [[]]
  | x :: xs =>
    let r := splitOnChar c xs
    if x = c then [] :: r
    else
      match r with
      | y :: ys => (x :: y) :: ys
      | [] => [[x]]

/-- servRef.split(':') as a list of strings. -/
def pySplitColon (s : String) : List String :=
  (splitOnChar ':' s.toList).map String.mk

/-- Splitting at every character satisfying p, keeping empty pieces. -/
def splitOnPred (p : Char → Bool) : List Char → List (List Char)
  | [] => [[]]
  | x :: xs =>
    let r := splitOnPred p xs
    if p x then [] :: r
    else
      match r with
      | y :: ys => (x :: y) :: ys
      | [] => [[x]]

/-- Python str.strip() on a character list. -/
def trimChars (cs : List Char) : List Char :=
  ((cs.dropWhile Char.isWhitespace).reverse.dropWhile Char.isWhitespace).reverse

def decDigit (c : Char) : Option Nat :=
  if '0' ≤ c ∧ c ≤ '9' then some (c.toNat - '0'.toNat) else none

def hexDigit (c : Char) : Option Nat :=
  if '0' ≤ c ∧ c ≤ '9' then some (c.toNat - '0'.toNat)
  else if 'a' ≤ c ∧ c ≤ 'f' then some (c.toNat - 'a'.toNat + 10)
  else if 'A' ≤ c ∧ c ≤ 'F' then some (c.toNat - 'A'.toNat + 10)
  else none

def digitsVal (dig : Char → Option Nat) (base : Nat) (cs : List Char) (acc : Nat) :
    Option Nat :=
  match cs with
  | [] => some acc
  | c :: cs =>
    match dig c with
    | some d => digitsVal dig base cs (acc * base + d)
    | none => none

/-- Python int(s): optional surrounding whitespace, optional sign, a
nonempty run of decimal digits; anything else raises ValueError (modelled
as none).  Digit-group underscores are not modelled; no input in scope
uses them. -/
def pyIntDec (s : String) : Option Int :=
  match trimChars s.toList with
  | [] => none
  | '+' :: rest => if rest = [] then none else (digitsVal decDigit 10 rest 0).map Int.ofNat
  | '-' :: rest =>
    if rest = [] then none else (digitsVal decDigit 10 rest 0).map (fun n => -(Int.ofNat n))
  | cs => (digitsVal decDigit 10 cs 0).map Int.ofNat

def stripHex0x (cs : List Char) : List Char :=
  match cs with
  | '0' :: 'x' :: rest => rest
  | '0' :: 'X' :: rest => rest
  | cs => cs

def hexNat (cs : List Char) : Option Nat :=
  match stripHex0x cs with
  | [] => none
  | cs => digitsVal hexDigit 16 cs 0

/-- Python int(s, 16): optional whitespace and sign, optional 0x prefix,
nonempty hex digits. -/
def pyIntHex (s : String) : Option Int :=
  match trimChars s.toList with
  | [] => none
  | '+' :: rest => (hexNat rest).map Int.ofNat
  | '-' :: rest => (hexNat rest).map (fun n => -(Int.ofNat n))
  | cs => (hexNat cs).map Int.ofNat

/-- n & ~0x0100 on arbitrary-precision two's-complement integers: clear
bit 8 (bit k of n is floor(n / 2^k) mod 2). -/
def pyClearBit8 (n : Int) : Int :=
  if (Int.fdiv n 256) % 2 = 1 then n - 256 else n

/-- n & 0xF on two's-complement integers is n mod 16 (Euclidean). -/
def pyAnd15 (n : Int) : Int := n % 16

/-- Index of the last occurrence of c (Python str.rfind, as an Option). -/
def lastIdxOf (c : Char) (cs : List Char) : Option Nat :=
  match cs with
  | [] => none
  | c' :: rest =>
    match lastIdxOf c rest with
    | some i => some (i + 1)
    | none => if c' = c then some 0 else none

/-- os.path.splitext for plain names (no directory separators): split at
the last dot unless every character before it is a dot. -/
def splitext (s : String) : String × String :=
  let cs := s.toList
  match lastIdxOf '.' cs with
  | none => (s, "")
  | some i =>
    if (cs.take i).all (fun c => c = '.') then (s, "")
    else (⟨cs.take i⟩, ⟨cs.drop i⟩)

/-- The ".png" listing filter used on both directories. -/
def isPng (n : String) : Bool := (splitext n).2 = ".png"

/-- Python str.split() with no argument: split on whitespace runs. -/
def pyWords (s : String) : List String :=
  ((splitOnPred Char.isWhitespace s.toList).map String.mk).filter (fun w => w ≠ "")

/-- re.sub('#.*', '', line): drop everything from the first '#'. -/
def stripComment (s : String) : String :=
  ⟨s.toList.takeWhile (fun c => c ≠ '#')⟩

/-- Python str.rstrip(). -/
def rstrip (s : String) : String :=
  ⟨(s.toList.reverse.dropWhile Char.isWhitespace).reverse⟩

/-! ## Icon inventory (LinkMaker._makePiconFileList) -/

/-- An entry of the channel_picons source directory as the scan sees it:
an image is any entry for which os.path.isfile holds, with its stat
identity; everything else is skipped. -/
inductive SrcEntry
  | image (ident : Ident)
  | nonfile
deriving DecidableEq

/-- Value of the inventory: (icon filename, stat identity). -/
abbrev PiconFiles := List (String × (String × Ident))

/-- Warnings and errors printed to stderr by the parts of the program in
scope, as structured messages. -/
inductive Msg
  | tooMany (line : String)
  | tooFew (line : String)
  | renamed (key oldFile newFile : String)
  | overridden (picon name : String)
  | conflict (servRef oldPicon newPicon : String)
  | linkFailed (piconName name : String)
  | noPicon (picon servRef : String)
deriving DecidableEq

/-- The suffix tags marking the picon source (LinkMaker.PICON_SRCS). -/
def PICON_SRCS : List String :=
  ["_ab", "_fv", "_gm", "_lw", "_mp", "_nine", "_rc", "_sbs", "_wp", "_ys"]

/-- One step of _makePiconFileList for a directory entry.  A name with a
recognized source suffix claims the stripped key, logging a rename and
overwriting on collision; a name with no recognized suffix claims its
full base name only if unclaimed, and is skipped otherwise (no message). -/
def piconListStep (acc : PiconFiles × List Msg) (p : String × SrcEntry) :
    PiconFiles × List Msg :=
  let (files, log) := acc
  let (piconName, se) := p
  let (basename, ext) := splitext piconName
  if ext = ".png" then
    match se with
    | .nonfile => acc
    | .image ident =>
      let bs := basename.toList
      let pb : Option String :=
        match lastIdxOf '_' bs with
        | some i =>
          if 0 < i ∧ String.mk (bs.drop i) ∈ PICON_SRCS then some ⟨bs.take i⟩
          else if (lookupA files basename).isNone then some basename
          else none
        | none =>
          if (lookupA files basename).isNone then some basename
          else none
      let log :=
        match lastIdxOf '_' bs with
        | some i =>
          if 0 < i ∧ String.mk (bs.drop i) ∈ PICON_SRCS then
            match lookupA files (String.mk (bs.take i)) with
            | some (oldName, _) => .renamed ⟨bs.take i⟩ oldName piconName :: log
            | none => log
          else log
        | none => log
      match pb with
      | some key => if key = "" then (files, log) else (setA files key (piconName, ident), log)
      | none => (files, log)
  else acc

/-- LinkMaker._makePiconFileList over the channel_picons listing. -/
def makePiconFileList (dir : List (String × SrcEntry)) : PiconFiles × List Msg :=
  dir.foldl piconListStep ([], [])

/-! ## Service-reference expansion (makeLinks, lines 211-236) -/

/-- Recognized command-line options relevant to the core. -/
structure Options where
  full : Bool
  short : Bool
  fold : Bool
  addfold : Bool
  useServiceNameLinks : Bool
  useHardLinks : Bool
  cleanAll : Bool
deriving DecidableEq

/-- Uncaught Python exceptions the expansion can raise: ValueError from
int(), IndexError from subscripting a short field list, NameError from
reading servRefPartsFold before any assignment. -/
inductive PyErr
  | valueError
  | indexError
  | nameError
deriving DecidableEq

/-- Python list subscript l[i]. -/
def pyGet {α : Type} (l : List α) (i : Nat) : Except PyErr α :=
  match l.get? i with
  | some x => .ok x
  | none => .error .indexError

/-- int(s) as an Except. -/
def pyInt (s : String) : Except PyErr Int :=
  match pyIntDec s with
  | some n => .ok n
  | none => .error .valueError

/-- int(s, 16) as an Except. -/
def pyInt16 (s : String) : Except PyErr Int :=
  match pyIntHex s with
  | some n => .ok n
  | none => .error .valueError

/-- Result of expanding one record: the list of servref part-lists
appended to servRefs, and the value of the function-local variable
servRefPartsFold after the record (it persists across loop iterations of
makeLinks, which the fold branch depends on). -/
structure ExpandOut where
  refs : List (List String)
  fold_var : Option (List String)
deriving DecidableEq

/-- makeLinks lines 219-230, the addfold branch: under the masked
field[0] = 1 guard, append the folded variant when the service-type is
outside {1, 2, 0xA}, and additionally the 0x2/0xA alias variant when
field[5] is 0x1010 or 0x3201 and field[3] & 0xF is 0xF (the guards parse
lazily, in the source's order).  Returns the appended part lists and the
servRefPartsFold binding after the branch. -/
def expandAddfold (o : Options) (fvar : Option (List String)) (parts : List String) :
    Except PyErr (List (List String) × Option (List String)) :=
  if o.addfold then
    match pyGet parts 0 with
    | .error e => .error e
    | .ok s0 =>
      match pyInt s0 with
      | .error e => .error e
      | .ok f0 =>
        if pyClearBit8 f0 = 1 then
          match pyGet parts 2 with
          | .error e => .error e
          | .ok s2 =>
            match pyInt16 s2 with
            | .error e => .error e
            | .ok stype =>
              let (r1, fv1) :=
                if stype ≠ 0x1 ∧ stype ≠ 0x2 ∧ stype ≠ 0xA then
                  ([parts.set 2 "1"], some (parts.set 2 "1"))
                else ([], fvar)
              if stype = 0x2 ∨ stype = 0xA then
                match pyGet parts 5 with
                | .error e => .error e
                | .ok s5 =>
                  match pyInt16 s5 with
                  | .error e => .error e
                  | .ok f5 =>
                    if f5 = 0x1010 ∨ f5 = 0x3201 then
                      match pyGet parts 3 with
                      | .error e => .error e
                      | .ok s3 =>
                        match pyInt16 s3 with
                        | .error e => .error e
                        | .ok f3 =>
                          if pyAnd15 f3 = 0xF then
                            .ok (r1 ++ [parts.set 2 (if stype = 0xA then "2" else "A")],
                                 some (parts.set 2 (if stype = 0xA then "2" else "A")))
                          else .ok (r1, fv1)
                    else .ok (r1, fv1)
              else .ok (r1, fv1)
        else .ok ([], fvar)
  else .ok ([], fvar)

/-- makeLinks lines 231-236, the fold branch: under the masked field[0]
guard, servRefPartsFold is assigned only when the service-type is outside
{1, 2, 0xA}, but is appended unconditionally; an unassigned binding
raises NameError. -/
def expandFold (o : Options) (fvar : Option (List String)) (parts : List String) :
    Except PyErr (List (List String) × Option (List String)) :=
  if o.fold then
    match pyGet parts 0 with
    | .error e => .error e
    | .ok s0 =>
      match pyInt s0 with
      | .error e => .error e
      | .ok f0 =>
        if pyClearBit8 f0 = 1 then
          match pyGet parts 2 with
          | .error e => .error e
          | .ok s2 =>
            match pyInt16 s2 with
            | .error e => .error e
            | .ok stype =>
              let fv2 :=
                if stype ≠ 0x1 ∧ stype ≠ 0x2 ∧ stype ≠ 0xA then some (parts.set 2 "1")
                else fvar
              match fv2 with
              | some v => .ok ([v], some v)
              | none => .error .nameError
        else .ok ([], fvar)
  else .ok ([], fvar)

/-- makeLinks lines 211-236: build servRefs for one record.  parts is
servRef.split(':')[0:10]; fvar is the servRefPartsFold binding on entry
(none = unbound).  The service-name, full and short rules are additive,
followed by the addfold and fold branches in source order. -/
def expandServRefs (o : Options) (fvar : Option (List String))
    (parts : List String) (serviceName : String) : Except PyErr ExpandOut :=
  let refs0 : List (List String) :=
    (if o.useServiceNameLinks then [[serviceName]] else []) ++
    (if o.full || o.addfold then [parts] else []) ++
    (if o.short then [parts.take 1 ++ (parts.drop 3).take 4] else [])
  match expandAddfold o fvar parts with
  | .error e => .error e
  | .ok (refs1, fvar1) =>
    match expandFold o fvar1 parts with
    | .error e => .error e
    | .ok (refs2, fvar2) => .ok ⟨refs0 ++ refs1 ++ refs2, fvar2⟩

/-! ## Reconciliation loop (makeLinks lines 238-292) -/

/-- The mutable state of one LinkMaker run: the output directory, the
baseline links kept by _cleanWrongLinks (origPiconLinks), the override
set, the per-run target map piconLinks, the used-icon set, the counters
printed at the end, the diagnostic log, and the servRefPartsFold loop
variable.  attempts counts os.link / os.symlink calls, indexing the
failure oracle. -/
structure St where
  fs : FS
  origPiconLinks : List (String × Ident)
  overrides : List String
  piconLinks : List (String × String)
  linkedPiconNames : List String
  linksMade : Nat
  removed : Nat
  attempts : Nat
  log : List Msg
  fold_var : Option (List String)
deriving DecidableEq

/-- The expanded target file name: '_'.join(srp) + '.png'. -/
def targetName (srp : List String) : String :=
  String.intercalate "_" srp ++ ".png"

/-- Python set.add on the used-icon set. -/
def addName (l : List String) (n : String) : List String :=
  if n ∈ l then l else n :: l

/-- The `if linked:` else-branch of makeLinks (lines 286-288): report a
missing link unless the icon key is a placeholder. -/
def noPiconReport (picon servRef : String) (st : St) : St :=
  if picon = "tba" ∨ picon = "tobeadvised" then st
  else { st with log := .noPicon picon servRef :: st.log }

/-- The condition under which makeLinks line 251 skips the target:
os.path.exists holds and isOverride returns True (already recorded, or a
plain regular file). -/
def overrideHit (st : St) (t : String) : Prop :=
  pathExists st.fs t = true ∧ (t ∈ st.overrides ∨ refType st.fs t = .isFile)

instance (st : St) (t : String) : Decidable (overrideHit st t) := by
  unfold overrideHit
  infer_instance

/-- The condition under which isOverride records a new override: first
IS_FILE observation of an existing path. -/
def overrideAdd (st : St) (t : String) : Prop :=
  pathExists st.fs t = true ∧ t ∉ st.overrides ∧ refType st.fs t = .isFile

instance (st : St) (t : String) : Decidable (overrideAdd st t) := by
  unfold overrideAdd
  infer_instance

/-- makeLinks body for one expanded target (lines 238-290).  failAt
answers whether the k-th link-creation call of the run raises.  The
override probe isOverride runs only when os.path.exists held, and adds
the path on its first IS_FILE observation. -/
def processTarget (o : Options) (pf : PiconFiles) (failAt : Nat → Bool)
    (servRef picon : String) (st : St) (srp : List String) : St :=
  let name := targetName srp
  match lookupA st.piconLinks name with
  | some p =>
    if p = picon then st
    else { st with log := .conflict servRef p picon :: st.log }
  | none =>
    let ex := pathExists st.fs name
    let overrides' := if overrideAdd st name then name :: st.overrides else st.overrides
    if overrideHit st name then
      { st with overrides := overrides',
                log := if name ∈ st.overrides then st.log
                       else .overridden picon name :: st.log }
    else
      let st1 := { st with overrides := overrides' }
      let lex := ex || pathLexists st1.fs name
      match lookupA pf picon with
      | none => noPiconReport picon servRef st1
      | some (piconName, piconRef) =>
        if !ex || lex then
          let (linked0, origPL') :=
            match lookupA st1.origPiconLinks name with
            | some r => (decide (r = piconRef), eraseA st1.origPiconLinks name)
            | none => (false, st1.origPiconLinks)
          if linked0 then
            { st1 with
              origPiconLinks := origPL',
              linkedPiconNames := addName st1.linkedPiconNames piconName,
              piconLinks := setA st1.piconLinks name picon }
          else
            let fs' := if lex then fsErase st1.fs name else st1.fs
            if failAt st1.attempts then
              noPiconReport picon servRef
                { st1 with
                  fs := fs', origPiconLinks := origPL',
                  linksMade := st1.linksMade + 1,
                  attempts := st1.attempts + 1,
                  log := .linkFailed piconName name :: st1.log }
            else
              { st1 with
                fs := fsSet fs' name (mkLinkEntry o.useHardLinks piconRef),
                origPiconLinks := origPL',
                linksMade := st1.linksMade + 1,
                attempts := st1.attempts + 1,
                linkedPiconNames := addName st1.linkedPiconNames piconName,
                piconLinks := setA st1.piconLinks name picon }
        else
          -- dead branch of the literal condition (not exists or lexists):
          -- linked stays false, same reporting as a missing icon
          noPiconReport picon servRef st1

/-- makeLinks body for one input line (lines 198-236 and the target
loop): strip the comment, rstrip, skip blanks, check the field count,
expand, process each target.  A PyErr from the expansion propagates out
of makeLinks uncaught; the returned state is the state at the raise. -/
def processRecord (o : Options) (pf : PiconFiles) (failAt : Nat → Bool)
    (st : St) (servRef serviceName picon : String) : St × Option PyErr :=
  let parts := (pySplitColon servRef).take 10
  match expandServRefs o st.fold_var parts serviceName with
  | .error e => (st, some e)
  | .ok out =>
    let st1 := { st with fold_var := out.fold_var }
    (out.refs.foldl (processTarget o pf failAt servRef picon) st1, none)

def processLine (o : Options) (pf : PiconFiles) (failAt : Nat → Bool)
    (st : St) (line : String) : St × Option PyErr :=
  let content := rstrip (stripComment line)
  if content = "" then (st, none)
  else
    match pyWords content with
    | [servRef, serviceName, picon] => processRecord o pf failAt st servRef serviceName picon
    | ws =>
      if ws.length > 3 then ({ st with log := .tooMany line :: st.log }, none)
      else ({ st with log := .tooFew line :: st.log }, none)

/-- The makeLinks loop over the service-reference file. -/
def runLines (o : Options) (pf : PiconFiles) (failAt : Nat → Bool) :
    St → List String → St × Option PyErr
  | st, [] => (st, none)
  | st, l :: ls =>
    match processLine o pf failAt st l with
    | (st', none) => runLines o pf failAt st' ls
    | (st', some e) => (st', some e)

/-! ## Existing-link scan (LinkMaker._cleanWrongLinks) and cleanup -/

/-- The loop of _cleanWrongLinks over listdir(piconPath): for each .png
entry classified SLINK or HLINK, stat it (a dangling link raises, which
the surrounding handler turns into exit(1), modelled as error); keep it
as a baseline link when its kind matches the configured kind, else
schedule its removal. -/
def scanLinks (useHardLinks : Bool) :
    FS → Except Unit (List (String × Ident) × List String)
  | [] => .ok ([], [])
  | (n, e) :: rest =>
    if isPng n then
      match entryRefType e with
      | .isSLink | .isHLink =>
        match entryLinkRef e with
        | none => .error ()
        | some r =>
          (scanLinks useHardLinks rest).map (fun ow =>
            if useHardLinks = true ↔ entryRefType e = .isHLink then ((n, r) :: ow.1, ow.2)
            else (ow.1, n :: ow.2))
      | _ => scanLinks useHardLinks rest
    else scanLinks useHardLinks rest

/-! ### Characterization of the scan on a duplicate-free directory -/

theorem linkKind_mkLinkEntry (hard : Bool) (r : Ident) :
    entryRefType (mkLinkEntry hard r) = .isSLink ∨
      entryRefType (mkLinkEntry hard r) = .isHLink := by
  cases hard
  · exact Or.inl rfl
  · exact Or.inr rfl

theorem match_cond_mkLinkEntry (hard : Bool) (r : Ident) :
    hard = true ↔ entryRefType (mkLinkEntry hard r) = .isHLink := by
  cases hard <;> simp [mkLinkEntry, entryRefType]

theorem mkLinkEntry_linkRef (hard : Bool) (r : Ident) :
    entryLinkRef (mkLinkEntry hard r) = some r := by
  cases hard <;> rfl

theorem mkLinkEntry_inj (hard : Bool) (r r' : Ident)
    (h : mkLinkEntry hard r = mkLinkEntry hard r') : r = r' := by
  cases hard <;> simpa [mkLinkEntry] using h

theorem eq_mkLinkEntry_of_match (hard : Bool) (e : Entry) (r0 : Ident)
    (hk : entryRefType e = .isSLink ∨ entryRefType e = .isHLink)
    (href : entryLinkRef e = some r0)
    (hm : hard = true ↔ entryRefType e = .isHLink) : e = mkLinkEntry hard r0 := by
  cases e with
  | file i => rcases hk with hk | hk <;> exact FType.noConfusion hk
  | other => rcases hk with hk | hk <;> exact FType.noConfusion hk
  | hlink i =>
    have hh : hard = true := hm.mpr rfl
    have : i = r0 := by simpa [entryLinkRef] using href
    rw [this, hh]
    rfl
  | slink res =>
    have hh : hard = false := by
      cases hhh : hard
      · rfl
      · exact absurd (hm.mp hhh) (by simp [entryRefType])
    have : res = some r0 := by simpa [entryLinkRef] using href
    rw [this, hh]
    rfl

theorem ne_mkLinkEntry_of_not_match (hard : Bool) (e : Entry)
    (hnm : ¬ (hard = true ↔ entryRefType e = .isHLink)) :
    ∀ r, e ≠ mkLinkEntry hard r := by
  intro r he
  rw [he] at hnm
  exact hnm (match_cond_mkLinkEntry hard r)

theorem scanLinks_cons_nonpng (hard : Bool) (n : String) (e : Entry) (rest : FS)
    (h : isPng n = false) :
    scanLinks hard ((n, e) :: rest) = scanLinks hard rest := by
  simp only [scanLinks, h]
  rfl

theorem scanLinks_cons_nonlink (hard : Bool) (n : String) (e : Entry) (rest : FS)
    (hk : entryRefType e ≠ .isSLink) (hk2 : entryRefType e ≠ .isHLink) :
    scanLinks hard ((n, e) :: rest) = scanLinks hard rest := by
  simp only [scanLinks]
  rcases hkind : entryRefType e <;> simp_all

theorem scanLinks_cons_dangling (hard : Bool) (n : String) (e : Entry) (rest : FS)
    (hpng : isPng n = true)
    (hk : entryRefType e = .isSLink ∨ entryRefType e = .isHLink)
    (href : entryLinkRef e = none) :
    scanLinks hard ((n, e) :: rest) = .error () := by
  simp only [scanLinks, hpng]
  rcases hkind : entryRefType e <;> simp_all

theorem scanLinks_cons_link (hard : Bool) (n : String) (e : Entry) (rest : FS) (r0 : Ident)
    (hpng : isPng n = true)
    (hk : entryRefType e = .isSLink ∨ entryRefType e = .isHLink)
    (href : entryLinkRef e = some r0) :
    scanLinks hard ((n, e) :: rest) =
      (scanLinks hard rest).map (fun ow =>
        if hard = true ↔ entryRefType e = .isHLink then ((n, r0) :: ow.1, ow.2)
        else (ow.1, n :: ow.2)) := by
  simp only [scanLinks, hpng]
  rcases hkind : entryRefType e <;> simp_all

/-- Characterization of a successful scan over a duplicate-free listing:
the baseline holds exactly the .png entries that are links of the
configured kind (with their identities), and the removal list exactly the
.png links of the other kind. -/
theorem scanLinks_spec (hard : Bool) (fs : FS) (hnd : (keysA fs).Nodup)
    (o : List (String × Ident)) (w : List String)
    (h : scanLinks hard fs = .ok (o, w)) :
    (∀ t r, lookupA o t = some r ↔
        (isPng t = true ∧ lookupA fs t = some (mkLinkEntry hard r))) ∧
    (∀ t, t ∈ w ↔ (isPng t = true ∧ ∃ e, lookupA fs t = some e ∧
        (entryRefType e = .isSLink ∨ entryRefType e = .isHLink) ∧
        ∀ r, e ≠ mkLinkEntry hard r)) := by
  induction fs generalizing o w with
  | nil =>
    have h' : (([], []) : List (String × Ident) × List String) = (o, w) :=
      Except.ok.inj h
    injection h' with h1 h2
    subst h1
    subst h2
    constructor
    · intro t r
      simp [lookupA]
    · intro t
      simp [lookupA]
  | cons p rest ih =>
    obtain ⟨n, e⟩ := p
    have hnd0 : (n :: keysA rest).Nodup := hnd
    have hnd' : (keysA rest).Nodup := (List.nodup_cons.mp hnd0).2
    have hnmem : n ∉ keysA rest := (List.nodup_cons.mp hnd0).1
    by_cases hpng : isPng n = true
    · by_cases hk : entryRefType e = .isSLink ∨ entryRefType e = .isHLink
      · rcases href : entryLinkRef e with _ | r0
        · rw [scanLinks_cons_dangling hard n e rest hpng hk href] at h
          exact Except.noConfusion h
        · rw [scanLinks_cons_link hard n e rest r0 hpng hk href] at h
          rcases hrest : scanLinks hard rest with u | ⟨o', w'⟩
          · rw [hrest] at h
            exact Except.noConfusion h
          · rw [hrest] at h
            simp only [Except.map] at h
            by_cases hm : hard = true ↔ entryRefType e = .isHLink
            · rw [if_pos hm] at h
              have h' := Except.ok.inj h
              injection h' with h1 h2
              subst h1
              subst h2
              have hme : e = mkLinkEntry hard r0 :=
                eq_mkLinkEntry_of_match hard e r0 hk href hm
              obtain ⟨ihA, ihB⟩ := ih hnd' o' w' hrest
              constructor
              · intro t r
                by_cases hts : n = t
                · subst hts
                  rw [lookupA, if_pos rfl, lookupA, if_pos rfl]
                  constructor
                  · intro hl
                    have : r0 = r := Option.some.inj hl
                    subst this
                    exact ⟨hpng, by rw [hme]⟩
                  · intro ⟨_, hl⟩
                    have he' : e = mkLinkEntry hard r := Option.some.inj hl
                    rw [hme] at he'
                    rw [mkLinkEntry_inj hard r0 r he']
                · rw [lookupA, if_neg hts, lookupA, if_neg hts]
                  exact ihA t r
              · intro t
                by_cases hts : n = t
                · subst hts
                  constructor
                  · intro hmem
                    have := (ihB n).mp hmem
                    obtain ⟨_, e', hl, _⟩ := this
                    exact absurd (lookupA_some_mem rest n e' hl) hnmem
                  · intro ⟨_, e', hl, _, hne⟩
                    rw [lookupA, if_pos rfl] at hl
                    have : e = e' := Option.some.inj hl
                    subst this
                    exact absurd hme (hne r0)
                · rw [show lookupA ((n, e) :: rest) t = lookupA rest t from by
                    rw [lookupA, if_neg hts]]
                  exact ihB t
            · rw [if_neg hm] at h
              have h' := Except.ok.inj h
              injection h' with h1 h2
              subst h1
              subst h2
              have hnme : ∀ r, e ≠ mkLinkEntry hard r :=
                ne_mkLinkEntry_of_not_match hard e hm
              obtain ⟨ihA, ihB⟩ := ih hnd' o' w' hrest
              constructor
              · intro t r
                by_cases hts : n = t
                · subst hts
                  constructor
                  · intro hl
                    obtain ⟨_, hl2⟩ := (ihA n r).mp hl
                    exact absurd (lookupA_some_mem rest n _ hl2) hnmem
                  · intro ⟨_, hl⟩
                    rw [lookupA, if_pos rfl] at hl
                    exact absurd (Option.some.inj hl) (hnme r)
                · rw [show lookupA ((n, e) :: rest) t = lookupA rest t from by
                    rw [lookupA, if_neg hts]]
                  exact ihA t r
              · intro t
                by_cases hts : n = t
                · subst hts
                  constructor
                  · intro _
                    exact ⟨hpng, e, by rw [lookupA, if_pos rfl], hk, hnme⟩
                  · intro _
                    exact List.mem_cons_self n w'
                · have hmemiff : t ∈ n :: w' ↔ t ∈ w' := by
                    rw [List.mem_cons]
                    constructor
                    · intro hh
                      rcases hh with hh | hh
                      · exact absurd hh.symm hts
                      · exact hh
                    · exact Or.inr
                  rw [show lookupA ((n, e) :: rest) t = lookupA rest t from by
                    rw [lookupA, if_neg hts]]
                  exact hmemiff.trans (ihB t)
      · rw [scanLinks_cons_nonlink hard n e rest
            (fun hs => hk (Or.inl hs)) (fun hs => hk (Or.inr hs))] at h
        obtain ⟨ihA, ihB⟩ := ih hnd' o w h
        constructor
        · intro t r
          by_cases hts : n = t
          · subst hts
            constructor
            · intro hl
              obtain ⟨_, hl2⟩ := (ihA n r).mp hl
              exact absurd (lookupA_some_mem rest n _ hl2) hnmem
            · intro ⟨_, hl⟩
              rw [lookupA, if_pos rfl] at hl
              have : e = mkLinkEntry hard r := Option.some.inj hl
              exact absurd (by rw [this]; exact linkKind_mkLinkEntry hard r) hk
          · rw [show lookupA ((n, e) :: rest) t = lookupA rest t from by
              rw [lookupA, if_neg hts]]
            exact ihA t r
        · intro t
          by_cases hts : n = t
          · subst hts
            constructor
            · intro hmem
              obtain ⟨_, e', hl, _⟩ := (ihB n).mp hmem
              exact absurd (lookupA_some_mem rest n e' hl) hnmem
            · intro ⟨_, e', hl, hk', _⟩
              rw [lookupA, if_pos rfl] at hl
              have : e = e' := Option.some.inj hl
              subst this
              exact absurd hk' hk
          · rw [show lookupA ((n, e) :: rest) t = lookupA rest t from by
              rw [lookupA, if_neg hts]]
            exact ihB t
    · have hpng' : isPng n = false := by
        cases hh : isPng n
        · rfl
        · exact absurd hh hpng
      rw [scanLinks_cons_nonpng hard n e rest hpng'] at h
      obtain ⟨ihA, ihB⟩ := ih hnd' o w h
      constructor
      · intro t r
        by_cases hts : n = t
        · subst hts
          constructor
          · intro hl
            obtain ⟨hp, _⟩ := (ihA n r).mp hl
            exact absurd hp hpng
          · intro ⟨hp, _⟩
            exact absurd hp hpng
        · rw [show lookupA ((n, e) :: rest) t = lookupA rest t from by
            rw [lookupA, if_neg hts]]
          exact ihA t r
      · intro t
        by_cases hts : n = t
        · subst hts
          constructor
          · intro hmem
            obtain ⟨hp, _⟩ := (ihB n).mp hmem
            exact absurd hp hpng
          · intro ⟨hp, _⟩
            exact absurd hp hpng
        · rw [show lookupA ((n, e) :: rest) t = lookupA rest t from by
            rw [lookupA, if_neg hts]]
          exact ihB t

/-- Errors aborting a directory run: exit(1) from the link scan, or an
uncaught exception from record expansion. -/
inductive RunErr
  | scanFail
  | expandErr (e : PyErr)
deriving DecidableEq

/-- Outcome of one directory run: final state, and the abort cause if
the run did not complete. -/
structure RunResult where
  st : St
  err : Option RunErr
deriving DecidableEq

/-- The state right after __init__'s _cleanWrongLinks: wrong-kind links
removed, baseline kept (emptied and deleted when cleanAll). -/
def initSt (o : Options) (fs0 : FS) (origPL : List (String × Ident))
    (wrong : List String) : St :=
  let fs1 := removeAll fs0 wrong
  let (origPL2, fs2, removed2) :=
    if o.cleanAll then ([], removeAll fs1 (keysA origPL), wrong.length + origPL.length)
    else (origPL, fs1, wrong.length)
  { fs := fs2, origPiconLinks := origPL2, overrides := [], piconLinks := [],
    linkedPiconNames := [], linksMade := 0, removed := removed2, attempts := 0,
    log := [], fold_var := none }

/-- A whole run over one output directory: the scan of existing links
(with the wrong-kind _clean and the cleanAll clean), makeLinks over the
database lines, and — when makeLinks did not raise — the final clean of
the unclaimed baseline entries. -/
def fullRun (o : Options) (pf : PiconFiles) (failAt : Nat → Bool)
    (fs0 : FS) (lines : List String) : RunResult :=
  match scanLinks o.useHardLinks fs0 with
  | .error _ => ⟨initSt o fs0 [] [], some .scanFail⟩
  | .ok (origPL, wrong) =>
    let st0 := initSt o fs0 origPL wrong
    match runLines o pf failAt st0 lines with
    | (st, some e) => ⟨st, some (.expandErr e)⟩
    | (st, none) =>
      ⟨{ st with fs := removeAll st.fs (keysA st.origPiconLinks),
                 removed := st.removed + st.origPiconLinks.length,
                 origPiconLinks := [] }, none⟩

/-! ## Log counting helpers -/

def isOvMsgFor (t : String) : Msg → Bool
  | .overridden _ n => n = t
  | _ => false

def ovCount (t : String) (l : List Msg) : Nat :=
  (l.filter (isOvMsgFor t)).length

def isConflictMsg : Msg → Bool
  | .conflict _ _ _ => true
  | _ => false

def conflictCount (l : List Msg) : Nat :=
  (l.filter isConflictMsg).length

/-- The all-success failure oracle: no os.link / os.symlink call fails. -/
def allOk : Nat → Bool := fun _ => false

/-- The source-suffix test of _makePiconFileList: the base name has a '_'
at a positive index whose tail is a recognized source tag. -/
def hasSrcSuffix (basename : String) : Bool :=
  match lastIdxOf '_' basename.toList with
  | some i => decide (0 < i ∧ String.mk (basename.toList.drop i) ∈ PICON_SRCS)
  | none => false

theorem piconListStep_no_suffix_claimed (files : PiconFiles) (log : List Msg)
    (piconName basename : String) (ident : Ident) (v : String × Ident)
    (hsplit : splitext piconName = (basename, ".png"))
    (hnosuf : hasSrcSuffix basename = false)
    (hclaimed : lookupA files basename = some v) :
    piconListStep (files, log) (piconName, .image ident) = (files, log) := by
  have hb : (splitext piconName).1 = basename := by rw [hsplit]
  have he : (splitext piconName).2 = ".png" := by rw [hsplit]
  simp only [piconListStep, hb, he, if_pos rfl, hclaimed, Option.isNone_some]
  unfold hasSrcSuffix at hnosuf
  rcases h : lastIdxOf '_' basename.toList with _ | i
  · simp [h, hclaimed]
  · rw [h] at hnosuf
    simp only [decide_eq_false_iff_not] at hnosuf
    have hnosuf' : ¬(0 < i ∧ String.mk (List.drop i basename.data) ∈ PICON_SRCS) := hnosuf
    simp [h, hnosuf', hclaimed]

/-! ## Claim C5: the fold rule on excluded service types -/

/-- C5 (code_bug evidence): for a record with field[0] = 1 and
service-type 2 (in the excluded set {1, 2, 0xA}), the fold rule does not
contribute nothing: the append of servRefPartsFold sits outside the
service-type guard, so with no previous binding the expansion raises
NameError (crashing the run), and with a stale binding from an earlier
record it appends that stale part list as a target. -/
theorem c5_fold_on_excluded_stype_raises :
    expandServRefs ⟨false, false, true, false, false, false, false⟩ none
      ((pySplitColon "1:0:2:0:0:0:0:0:0:0").take 10) "X" = .error .nameError ∧
    expandServRefs ⟨false, false, true, false, false, false, false⟩ (some ["9", "9"])
      ((pySplitColon "1:0:2:0:0:0:0:0:0:0").take 10) "X" =
      .ok ⟨[["9", "9"]], some ["9", "9"]⟩ := by
  constructor <;> rfl

/-! ## Claim C6: the addfold example record -/

/-- C6 (counterexample): expanding 1:0:2:4A:6:1010:0:0:0:0 with addfold
yields exactly one target part list (the record as given), not three:
service-type 2 is in the excluded set so no folded variant is produced,
and 0x4A & 0xF = 0xA, not 0xF, so no alias variant is produced. -/
theorem c6_counterexample :
    (expandServRefs ⟨false, false, false, true, false, false, false⟩ none
        ((pySplitColon "1:0:2:4A:6:1010:0:0:0:0").take 10) "ABC News").map ExpandOut.refs =
      .ok [["1", "0", "2", "4A", "6", "1010", "0", "0", "0", "0"]] ∧
    [["1", "0", "2", "4A", "6", "1010", "0", "0", "0", "0"]] ≠
      [["1", "0", "2", "4A", "6", "1010", "0", "0", "0", "0"],
       ["1", "0", "1", "4A", "6", "1010", "0", "0", "0", "0"],
       ["1", "0", "A", "4A", "6", "1010", "0", "0", "0", "0"]] := by
  constructor
  · rfl
  · decide

/-- C6 (amended): expanding the record 1:0:2:4A:6:1010:0:0:0:0 with icon
key abcnews under addfold yields exactly one target, the full target with
service-type 2 as given; the fold variant is suppressed (service-type 2
is excluded) and the alias variant is suppressed (0x4A & 0xF ≠ 0xF). -/
theorem c6_addfold_example_expansion :
    expandServRefs ⟨false, false, false, true, false, false, false⟩ none
        ((pySplitColon "1:0:2:4A:6:1010:0:0:0:0").take 10) "ABC News" =
      .ok ⟨[["1", "0", "2", "4A", "6", "1010", "0", "0", "0", "0"]], none⟩ := by
  rfl

theorem bang_or_self (a b : Bool) : (!a || (a || b)) = true := by
  cases a <;> simp

/-! ### Branch equations for processTarget -/

theorem processTarget_of_claimed (o : Options) (pf : PiconFiles) (failAt : Nat → Bool)
    (servRef picon p : String) (st : St) (srp : List String)
    (h : lookupA st.piconLinks (targetName srp) = some p) :
    processTarget o pf failAt servRef picon st srp =
      (if p = picon then st
       else { st with log := .conflict servRef p picon :: st.log }) := by
  simp [processTarget, h]

theorem processTarget_of_override (o : Options) (pf : PiconFiles) (failAt : Nat → Bool)
    (servRef picon : String) (st : St) (srp : List String)
    (hun : lookupA st.piconLinks (targetName srp) = none)
    (hov : overrideHit st (targetName srp)) :
    processTarget o pf failAt servRef picon st srp =
      { st with
        overrides := if overrideAdd st (targetName srp)
                     then targetName srp :: st.overrides else st.overrides,
        log := if targetName srp ∈ st.overrides then st.log
               else .overridden picon (targetName srp) :: st.log } := by
  simp [processTarget, hun, hov]

theorem overrideAdd_of_not_hit (st : St) (t : String) (h : ¬ overrideHit st t) :
    ¬ overrideAdd st t := by
  intro ⟨hex, hnm, hf⟩
  exact h ⟨hex, Or.inr hf⟩

theorem processTarget_of_no_icon (o : Options) (pf : PiconFiles) (failAt : Nat → Bool)
    (servRef picon : String) (st : St) (srp : List String)
    (hun : lookupA st.piconLinks (targetName srp) = none)
    (hov : ¬ overrideHit st (targetName srp))
    (hpf : lookupA pf picon = none) :
    processTarget o pf failAt servRef picon st srp = noPiconReport picon servRef st := by
  simp [processTarget, hun, hov, hpf, overrideAdd_of_not_hit st _ hov]

theorem processTarget_of_match (o : Options) (pf : PiconFiles) (failAt : Nat → Bool)
    (servRef picon piconName : String) (piconRef r : Ident) (st : St) (srp : List String)
    (hun : lookupA st.piconLinks (targetName srp) = none)
    (hov : ¬ overrideHit st (targetName srp))
    (hpf : lookupA pf picon = some (piconName, piconRef))
    (horig : lookupA st.origPiconLinks (targetName srp) = some r)
    (hr : r = piconRef) :
    processTarget o pf failAt servRef picon st srp =
      { st with
        origPiconLinks := eraseA st.origPiconLinks (targetName srp),
        linkedPiconNames := addName st.linkedPiconNames piconName,
        piconLinks := setA st.piconLinks (targetName srp) picon } := by
  simp [processTarget, hun, hov, hpf, horig, hr,
    overrideAdd_of_not_hit st _ hov, bang_or_self]

/-- The baseline deletion and pre-link removal shared by the creation
branches: origPiconLinks loses the target, the filesystem loses any
pre-existing entry at the target. -/
theorem processTarget_of_create (o : Options) (pf : PiconFiles) (failAt : Nat → Bool)
    (servRef picon piconName : String) (piconRef : Ident) (st : St) (srp : List String)
    (hun : lookupA st.piconLinks (targetName srp) = none)
    (hov : ¬ overrideHit st (targetName srp))
    (hpf : lookupA pf picon = some (piconName, piconRef))
    (horig : ∀ r, lookupA st.origPiconLinks (targetName srp) = some r → r ≠ piconRef)
    (hfail : failAt st.attempts = false) :
    processTarget o pf failAt servRef picon st srp =
      { st with
        fs := fsSet (if pathExists st.fs (targetName srp) || pathLexists st.fs (targetName srp)
                     then fsErase st.fs (targetName srp) else st.fs)
                (targetName srp) (mkLinkEntry o.useHardLinks piconRef),
        origPiconLinks := eraseA st.origPiconLinks (targetName srp),
        linksMade := st.linksMade + 1,
        attempts := st.attempts + 1,
        linkedPiconNames := addName st.linkedPiconNames piconName,
        piconLinks := setA st.piconLinks (targetName srp) picon } := by
  rcases h : lookupA st.origPiconLinks (targetName srp) with _ | r
  · have herase : eraseA st.origPiconLinks (targetName srp) = st.origPiconLinks :=
      eraseA_of_lookupA_none _ _ h
    simp [processTarget, hun, hov, hpf, h, hfail,
      overrideAdd_of_not_hit st _ hov, bang_or_self, herase]
  · have hne := horig r h
    simp [processTarget, hun, hov, hpf, h, hfail, hne,
      overrideAdd_of_not_hit st _ hov, bang_or_self]

/-- The state after a failed link creation for target t: the pre-link
removal happened (when anything existed at t), linksMade was already
incremented, the failure is logged, and nothing is claimed. -/
def linkFailState (piconName t : String) (st : St) : St :=
  { st with
    fs := if pathExists st.fs t || pathLexists st.fs t then fsErase st.fs t else st.fs,
    linksMade := st.linksMade + 1,
    attempts := st.attempts + 1,
    log := .linkFailed piconName t :: st.log }

theorem processTarget_of_createfail (o : Options) (pf : PiconFiles) (failAt : Nat → Bool)
    (servRef picon piconName : String) (piconRef : Ident) (st : St) (srp : List String)
    (hun : lookupA st.piconLinks (targetName srp) = none)
    (hov : ¬ overrideHit st (targetName srp))
    (hpf : lookupA pf picon = some (piconName, piconRef))
    (horig : lookupA st.origPiconLinks (targetName srp) = none)
    (hfail : failAt st.attempts = true) :
    processTarget o pf failAt servRef picon st srp =
      noPiconReport picon servRef (linkFailState piconName (targetName srp) st) := by
  simp [processTarget, linkFailState, hun, hov, hpf, horig, hfail,
    overrideAdd_of_not_hit st _ hov, bang_or_self]

theorem noPiconReport_fs (picon servRef : String) (st : St) :
    (noPiconReport picon servRef st).fs = st.fs := by
  unfold noPiconReport
  split <;> rfl

theorem noPiconReport_piconLinks (picon servRef : String) (st : St) :
    (noPiconReport picon servRef st).piconLinks = st.piconLinks := by
  unfold noPiconReport
  split <;> rfl

theorem noPiconReport_origPiconLinks (picon servRef : String) (st : St) :
    (noPiconReport picon servRef st).origPiconLinks = st.origPiconLinks := by
  unfold noPiconReport
  split <;> rfl

theorem noPiconReport_overrides (picon servRef : String) (st : St) :
    (noPiconReport picon servRef st).overrides = st.overrides := by
  unfold noPiconReport
  split <;> rfl

theorem noPiconReport_linksMade (picon servRef : String) (st : St) :
    (noPiconReport picon servRef st).linksMade = st.linksMade := by
  unfold noPiconReport
  split <;> rfl

theorem noPiconReport_attempts (picon servRef : String) (st : St) :
    (noPiconReport picon servRef st).attempts = st.attempts := by
  unfold noPiconReport
  split <;> rfl

theorem noPiconReport_removed (picon servRef : String) (st : St) :
    (noPiconReport picon servRef st).removed = st.removed := by
  unfold noPiconReport
  split <;> rfl

theorem noPiconReport_fold_var (picon servRef : String) (st : St) :
    (noPiconReport picon servRef st).fold_var = st.fold_var := by
  unfold noPiconReport
  split <;> rfl

theorem noPiconReport_conflictCount (picon servRef : String) (st : St) :
    conflictCount (noPiconReport picon servRef st).log = conflictCount st.log := by
  unfold noPiconReport
  split
  · rfl
  · simp [conflictCount, isConflictMsg]

theorem noPiconReport_ovCount (t picon servRef : String) (st : St) :
    ovCount t (noPiconReport picon servRef st).log = ovCount t st.log := by
  unfold noPiconReport
  split
  · rfl
  · simp [ovCount, isOvMsgFor]


/-! ## The single-run invariant -/

theorem mkLinkEntry_ne_file (hard : Bool) (r i : Ident) :
    mkLinkEntry hard r ≠ .file i := by
  cases hard <;> simp [mkLinkEntry]

theorem refType_isFile_iff (fs : FS) (t : String) :
    refType fs t = .isFile ↔ ∃ i, lookupA fs t = some (.file i) := by
  unfold refType
  rcases h : lookupA fs t with _ | e
  · simp
  · cases e <;> simp [entryRefType]

theorem pathExists_of_file (fs : FS) (t : String) (i : Ident)
    (h : lookupA fs t = some (.file i)) : pathExists fs t = true := by
  unfold pathExists
  rw [h]

theorem overrideHit_of_file (st : St) (t : String) (i : Ident)
    (h : lookupA st.fs t = some (.file i)) : overrideHit st t :=
  ⟨pathExists_of_file st.fs t i h, Or.inr ((refType_isFile_iff st.fs t).mpr ⟨i, h⟩)⟩

theorem ovCount_cons_nonov (t : String) (m : Msg) (l : List Msg)
    (h : isOvMsgFor t m = false) : ovCount t (m :: l) = ovCount t l := by
  simp [ovCount, List.filter_cons, h]

theorem ovCount_cons_ov (t : String) (m : Msg) (l : List Msg)
    (h : isOvMsgFor t m = true) : ovCount t (m :: l) = ovCount t l + 1 := by
  simp [ovCount, List.filter_cons, h]

/-- The invariant of the reconciliation loop over one run, relative to
the state fs00 / origPL0 right after the initial scan (the state
makeLinks starts from).
* claims_linked: every claimed target is linked, of the configured kind,
  to its icon's inventory identity, and is no longer in the baseline
* orig_linked: every remaining baseline entry still is the scanned link
* files_iff: plain-file entries are exactly the initial plain files
* overrides_files: every recorded override is a plain file
* ov_log: the override message is printed at most once per target, and
  only for recorded overrides
* orig_hist: an initial baseline entry is still in the baseline, or its
  target was claimed, or the entry was removed from the directory
* none_hist: names absent at start are still absent unless claimed
* png_ok: every .png entry is a plain file, an alien entry, or a link of
  the configured kind (wrong-kind links were removed by the scan and are
  never recreated)
* links_claimed: every .png link of the configured kind is a remaining
  baseline entry or a claimed target
* nodup_fs: directory names stay duplicate-free -/
structure Inv (o : Options) (pf : PiconFiles) (fs00 : FS)
    (origPL0 : List (String × Ident)) (st : St) : Prop where
  claims_linked : ∀ t p, lookupA st.piconLinks t = some p →
    ∃ nm ref, lookupA pf p = some (nm, ref) ∧
      lookupA st.fs t = some (mkLinkEntry o.useHardLinks ref) ∧
      lookupA st.origPiconLinks t = none
  orig_linked : ∀ t r, lookupA st.origPiconLinks t = some r →
    lookupA st.fs t = some (mkLinkEntry o.useHardLinks r)
  files_iff : ∀ t i, lookupA fs00 t = some (.file i) ↔ lookupA st.fs t = some (.file i)
  overrides_files : ∀ t, t ∈ st.overrides → ∃ i, lookupA st.fs t = some (.file i)
  ov_log : ∀ t, (t ∈ st.overrides → ovCount t st.log ≤ 1) ∧
    (t ∉ st.overrides → ovCount t st.log = 0)
  orig_hist : ∀ t r, lookupA origPL0 t = some r →
    lookupA st.origPiconLinks t = some r ∨ (lookupA st.piconLinks t).isSome = true ∨
      lookupA st.fs t = none
  none_hist : ∀ t, lookupA fs00 t = none →
    lookupA st.fs t = none ∨ (lookupA st.piconLinks t).isSome = true
  png_ok : ∀ t e, isPng t = true → lookupA st.fs t = some e →
    (∃ i, e = .file i) ∨ e = .other ∨ ∃ r, e = mkLinkEntry o.useHardLinks r
  links_claimed : ∀ t r, isPng t = true →
    lookupA st.fs t = some (mkLinkEntry o.useHardLinks r) →
    lookupA st.origPiconLinks t = some r ∨ (lookupA st.piconLinks t).isSome = true
  nodup_fs : (keysA st.fs).Nodup

/-- Appending a message that is not an override report preserves the
invariant (only ov_log inspects the log). -/
theorem inv_log_cons (o : Options) (pf : PiconFiles) (fs00 : FS)
    (origPL0 : List (String × Ident)) (st : St) (m : Msg)
    (hm : ∀ t, isOvMsgFor t m = false)
    (hinv : Inv o pf fs00 origPL0 st) :
    Inv o pf fs00 origPL0 { st with log := m :: st.log } := by
  refine ⟨hinv.claims_linked, hinv.orig_linked, hinv.files_iff, hinv.overrides_files,
    ?_, hinv.orig_hist, hinv.none_hist, hinv.png_ok, hinv.links_claimed, hinv.nodup_fs⟩
  intro t
  show (t ∈ st.overrides → ovCount t (m :: st.log) ≤ 1) ∧
    (t ∉ st.overrides → ovCount t (m :: st.log) = 0)
  rw [ovCount_cons_nonov t m st.log (hm t)]
  exact hinv.ov_log t

theorem inv_noPiconReport (o : Options) (pf : PiconFiles) (fs00 : FS)
    (origPL0 : List (String × Ident)) (st : St) (picon servRef : String)
    (hinv : Inv o pf fs00 origPL0 st) :
    Inv o pf fs00 origPL0 (noPiconReport picon servRef st) := by
  unfold noPiconReport
  split
  · exact hinv
  · exact inv_log_cons o pf fs00 origPL0 st _ (fun t => rfl) hinv

theorem processTarget_of_createfail_mismatch (o : Options) (pf : PiconFiles)
    (failAt : Nat → Bool) (servRef picon piconName : String) (piconRef r : Ident)
    (st : St) (srp : List String)
    (hun : lookupA st.piconLinks (targetName srp) = none)
    (hov : ¬ overrideHit st (targetName srp))
    (hpf : lookupA pf picon = some (piconName, piconRef))
    (horig : lookupA st.origPiconLinks (targetName srp) = some r)
    (hr : r ≠ piconRef)
    (hfail : failAt st.attempts = true) :
    processTarget o pf failAt servRef picon st srp =
      noPiconReport picon servRef
        (linkFailState piconName (targetName srp)
          { st with origPiconLinks := eraseA st.origPiconLinks (targetName srp) }) := by
  simp [processTarget, linkFailState, hun, hov, hpf, horig, hr, hfail,
    overrideAdd_of_not_hit st _ hov, bang_or_self]

theorem linkFailState_fs_self (piconName t : String) (st : St) :
    lookupA (linkFailState piconName t st).fs t = none := by
  show lookupA (if pathExists st.fs t || pathLexists st.fs t
    then fsErase st.fs t else st.fs) t = none
  rcases hh : lookupA st.fs t with _ | e
  · have hex : pathExists st.fs t = false := by
      unfold pathExists
      rw [hh]
    have hlex : pathLexists st.fs t = false := by
      unfold pathLexists
      rw [hh]
      rfl
    rw [hex, hlex]
    simpa using hh
  · have hlex : pathLexists st.fs t = true := by
      unfold pathLexists
      rw [hh]
      rfl
    rw [hlex]
    simp [fsErase, lookupA_eraseA_self]

theorem linkFailState_fs_ne (piconName t t' : String) (st : St) (h : t' ≠ t) :
    lookupA (linkFailState piconName t st).fs t' = lookupA st.fs t' := by
  show lookupA (if pathExists st.fs t || pathLexists st.fs t
    then fsErase st.fs t else st.fs) t' = lookupA st.fs t'
  split
  · exact lookupA_eraseA_ne st.fs t t' (fun hh => h hh.symm)
  · rfl

theorem linkFailState_fs_nodup (piconName t : String) (st : St)
    (h : (keysA st.fs).Nodup) : (keysA (linkFailState piconName t st).fs).Nodup := by
  show (keysA (if pathExists st.fs t || pathLexists st.fs t
    then fsErase st.fs t else st.fs)).Nodup
  split
  · exact nodup_eraseA st.fs t h
  · exact h

/-- Invariant preservation: the override-skip branch. -/
theorem inv_override_branch (o : Options) (pf : PiconFiles) (fs00 : FS)
    (origPL0 : List (String × Ident)) (st : St) (picon t : String)
    (hinv : Inv o pf fs00 origPL0 st)
    (hov : overrideHit st t) :
    Inv o pf fs00 origPL0
      { st with overrides := if overrideAdd st t then t :: st.overrides else st.overrides,
                log := if t ∈ st.overrides then st.log
                       else .overridden picon t :: st.log } := by
  by_cases hmem : t ∈ st.overrides
  · have hadd : ¬ overrideAdd st t := by
      intro ⟨_, hnm, _⟩
      exact hnm hmem
    rw [if_neg hadd, if_pos hmem]
    exact ⟨hinv.claims_linked, hinv.orig_linked, hinv.files_iff, hinv.overrides_files,
      hinv.ov_log, hinv.orig_hist, hinv.none_hist, hinv.png_ok, hinv.links_claimed,
      hinv.nodup_fs⟩
  · have hfile : refType st.fs t = .isFile := by
      rcases hov with ⟨hex, hmem' | hfile⟩
      · exact absurd hmem' hmem
      · exact hfile
    have hadd : overrideAdd st t := ⟨hov.1, hmem, hfile⟩
    rw [if_pos hadd, if_neg hmem]
    obtain ⟨i, hfi⟩ := (refType_isFile_iff st.fs t).mp hfile
    refine ⟨hinv.claims_linked, hinv.orig_linked, hinv.files_iff, ?_, ?_,
      hinv.orig_hist, hinv.none_hist, hinv.png_ok, hinv.links_claimed, hinv.nodup_fs⟩
    · intro t' hmem'
      show ∃ i, lookupA st.fs t' = some (.file i)
      rcases List.mem_cons.mp hmem' with h | h
      · subst h
        exact ⟨i, hfi⟩
      · exact hinv.overrides_files t' h
    · intro t'
      by_cases hts : t' = t
      · subst hts
        constructor
        · intro _
          show ovCount t' (Msg.overridden picon t' :: st.log) ≤ 1
          rw [ovCount_cons_ov t' _ _ (by simp [isOvMsgFor])]
          rw [(hinv.ov_log t').2 hmem]
        · intro hno
          exact absurd (List.mem_cons_self t' st.overrides) hno
      · constructor
        · intro hmem'
          show ovCount t' (Msg.overridden picon t :: st.log) ≤ 1
          rw [ovCount_cons_nonov t' _ _ (by
            simp only [isOvMsgFor, decide_eq_false_iff_not]
            intro h
            exact hts h.symm)]
          rcases List.mem_cons.mp hmem' with h | h
          · exact absurd h hts
          · exact (hinv.ov_log t').1 h
        · intro hno
          show ovCount t' (Msg.overridden picon t :: st.log) = 0
          rw [ovCount_cons_nonov t' _ _ (by
            simp only [isOvMsgFor, decide_eq_false_iff_not]
            intro h
            exact hts h.symm)]
          exact (hinv.ov_log t').2 (fun h => hno (List.mem_cons.mpr (Or.inr h)))

/-- Invariant preservation: the identity-match claim branch. -/
theorem inv_match_branch (o : Options) (pf : PiconFiles) (fs00 : FS)
    (origPL0 : List (String × Ident)) (st : St) (picon piconName t : String)
    (piconRef : Ident)
    (hinv : Inv o pf fs00 origPL0 st)
    (hun : lookupA st.piconLinks t = none)
    (hpf : lookupA pf picon = some (piconName, piconRef))
    (horig : lookupA st.origPiconLinks t = some piconRef) :
    Inv o pf fs00 origPL0
      { st with
        origPiconLinks := eraseA st.origPiconLinks t,
        linkedPiconNames := addName st.linkedPiconNames piconName,
        piconLinks := setA st.piconLinks t picon } := by
  have hfs : lookupA st.fs t = some (mkLinkEntry o.useHardLinks piconRef) :=
    hinv.orig_linked t piconRef horig
  refine ⟨?_, ?_, hinv.files_iff, hinv.overrides_files, hinv.ov_log, ?_, ?_,
    hinv.png_ok, ?_, hinv.nodup_fs⟩
  · intro t' p hp
    by_cases hts : t = t'
    · subst hts
      rw [lookupA_setA_self] at hp
      have : picon = p := Option.some.inj hp
      subst this
      exact ⟨piconName, piconRef, hpf, hfs, lookupA_eraseA_self _ _⟩
    · rw [lookupA_setA_ne _ _ _ _ hts] at hp
      obtain ⟨nm, ref, h1, h2, h3⟩ := hinv.claims_linked t' p hp
      exact ⟨nm, ref, h1, h2, by rw [lookupA_eraseA_ne _ _ _ hts]; exact h3⟩
  · intro t' r hr
    by_cases hts : t = t'
    · subst hts
      rw [lookupA_eraseA_self] at hr
      exact Option.noConfusion hr
    · rw [lookupA_eraseA_ne _ _ _ hts] at hr
      exact hinv.orig_linked t' r hr
  · intro t' r hr
    by_cases hts : t = t'
    · subst hts
      refine Or.inr (Or.inl ?_)
      rw [lookupA_setA_self]
      rfl
    · rcases hinv.orig_hist t' r hr with h | h | h
      · exact Or.inl (by rw [lookupA_eraseA_ne _ _ _ hts]; exact h)
      · exact Or.inr (Or.inl (by rw [lookupA_setA_ne _ _ _ _ hts]; exact h))
      · exact Or.inr (Or.inr h)
  · intro t' h0
    by_cases hts : t = t'
    · subst hts
      refine Or.inr ?_
      rw [lookupA_setA_self]
      rfl
    · rcases hinv.none_hist t' h0 with h | h
      · exact Or.inl h
      · exact Or.inr (by rw [lookupA_setA_ne _ _ _ _ hts]; exact h)
  · intro t' r hpng hfs'
    by_cases hts : t = t'
    · subst hts
      refine Or.inr ?_
      rw [lookupA_setA_self]
      rfl
    · rcases hinv.links_claimed t' r hpng hfs' with h | h
      · exact Or.inl (by rw [lookupA_eraseA_ne _ _ _ hts]; exact h)
      · exact Or.inr (by rw [lookupA_setA_ne _ _ _ _ hts]; exact h)

/-- Invariant preservation: the successful link-creation branch. -/
theorem inv_create_branch (o : Options) (pf : PiconFiles) (fs00 : FS)
    (origPL0 : List (String × Ident)) (st : St) (picon piconName t : String)
    (piconRef : Ident)
    (hinv : Inv o pf fs00 origPL0 st)
    (hun : lookupA st.piconLinks t = none)
    (hov : ¬ overrideHit st t)
    (hpf : lookupA pf picon = some (piconName, piconRef)) :
    Inv o pf fs00 origPL0
      { st with
        fs := fsSet (if pathExists st.fs t || pathLexists st.fs t
                     then fsErase st.fs t else st.fs)
                t (mkLinkEntry o.useHardLinks piconRef),
        origPiconLinks := eraseA st.origPiconLinks t,
        linksMade := st.linksMade + 1,
        attempts := st.attempts + 1,
        linkedPiconNames := addName st.linkedPiconNames piconName,
        piconLinks := setA st.piconLinks t picon } := by
  have hnotfile : ∀ i, lookupA st.fs t ≠ some (.file i) := by
    intro i hf
    exact hov (overrideHit_of_file st t i hf)
  have hlook_self : lookupA (fsSet (if pathExists st.fs t || pathLexists st.fs t
      then fsErase st.fs t else st.fs) t (mkLinkEntry o.useHardLinks piconRef)) t =
      some (mkLinkEntry o.useHardLinks piconRef) := lookupA_setA_self _ _ _
  have hlook_ne : ∀ t', t ≠ t' →
      lookupA (fsSet (if pathExists st.fs t || pathLexists st.fs t
        then fsErase st.fs t else st.fs) t (mkLinkEntry o.useHardLinks piconRef)) t' =
      lookupA st.fs t' := by
    intro t' hts
    rw [show fsSet (if pathExists st.fs t || pathLexists st.fs t
      then fsErase st.fs t else st.fs) t (mkLinkEntry o.useHardLinks piconRef) =
      setA (if pathExists st.fs t || pathLexists st.fs t
      then fsErase st.fs t else st.fs) t (mkLinkEntry o.useHardLinks piconRef) from rfl]
    rw [lookupA_setA_ne _ _ _ _ hts]
    split
    · exact lookupA_eraseA_ne st.fs t t' hts
    · rfl
  refine ⟨?_, ?_, ?_, ?_, hinv.ov_log, ?_, ?_, ?_, ?_, ?_⟩
  · intro t' p hp
    by_cases hts : t = t'
    · subst hts
      rw [lookupA_setA_self] at hp
      have : picon = p := Option.some.inj hp
      subst this
      exact ⟨piconName, piconRef, hpf, hlook_self, lookupA_eraseA_self _ _⟩
    · rw [lookupA_setA_ne _ _ _ _ hts] at hp
      obtain ⟨nm, ref, h1, h2, h3⟩ := hinv.claims_linked t' p hp
      refine ⟨nm, ref, h1, ?_, by rw [lookupA_eraseA_ne _ _ _ hts]; exact h3⟩
      rw [hlook_ne t' hts]
      exact h2
  · intro t' r hr
    by_cases hts : t = t'
    · subst hts
      rw [lookupA_eraseA_self] at hr
      exact Option.noConfusion hr
    · rw [lookupA_eraseA_ne _ _ _ hts] at hr
      rw [hlook_ne t' hts]
      exact hinv.orig_linked t' r hr
  · intro t' i
    by_cases hts : t = t'
    · subst hts
      constructor
      · intro h0
        exact absurd ((hinv.files_iff t i).mp h0) (hnotfile i)
      · intro h0
        rw [hlook_self] at h0
        exact absurd (Option.some.inj h0) (mkLinkEntry_ne_file o.useHardLinks piconRef i)
    · rw [show lookupA ({ st with
        fs := fsSet (if pathExists st.fs t || pathLexists st.fs t
                     then fsErase st.fs t else st.fs)
                t (mkLinkEntry o.useHardLinks piconRef),
        origPiconLinks := eraseA st.origPiconLinks t,
        linksMade := st.linksMade + 1,
        attempts := st.attempts + 1,
        linkedPiconNames := addName st.linkedPiconNames piconName,
        piconLinks := setA st.piconLinks t picon } : St).fs t' = lookupA st.fs t' from
        hlook_ne t' hts]
      exact hinv.files_iff t' i
  · intro t' hmem
    obtain ⟨i, hfi⟩ := hinv.overrides_files t' hmem
    by_cases hts : t = t'
    · subst hts
      exact absurd hfi (hnotfile i)
    · refine ⟨i, ?_⟩
      rw [hlook_ne t' hts]
      exact hfi
  · intro t' r hr
    by_cases hts : t = t'
    · subst hts
      refine Or.inr (Or.inl ?_)
      rw [lookupA_setA_self]
      rfl
    · rcases hinv.orig_hist t' r hr with h | h | h
      · exact Or.inl (by rw [lookupA_eraseA_ne _ _ _ hts]; exact h)
      · exact Or.inr (Or.inl (by rw [lookupA_setA_ne _ _ _ _ hts]; exact h))
      · refine Or.inr (Or.inr ?_)
        rw [hlook_ne t' hts]
        exact h
  · intro t' h0
    by_cases hts : t = t'
    · subst hts
      refine Or.inr ?_
      rw [lookupA_setA_self]
      rfl
    · rcases hinv.none_hist t' h0 with h | h
      · refine Or.inl ?_
        rw [hlook_ne t' hts]
        exact h
      · exact Or.inr (by rw [lookupA_setA_ne _ _ _ _ hts]; exact h)
  · intro t' e hpng hfs'
    by_cases hts : t = t'
    · subst hts
      rw [hlook_self] at hfs'
      exact Or.inr (Or.inr ⟨piconRef, (Option.some.inj hfs').symm⟩)
    · rw [hlook_ne t' hts] at hfs'
      exact hinv.png_ok t' e hpng hfs'
  · intro t' r hpng hfs'
    by_cases hts : t = t'
    · subst hts
      refine Or.inr ?_
      rw [lookupA_setA_self]
      rfl
    · rw [hlook_ne t' hts] at hfs'
      rcases hinv.links_claimed t' r hpng hfs' with h | h
      · exact Or.inl (by rw [lookupA_eraseA_ne _ _ _ hts]; exact h)
      · exact Or.inr (by rw [lookupA_setA_ne _ _ _ _ hts]; exact h)
  · show (keysA (fsSet (if pathExists st.fs t || pathLexists st.fs t
      then fsErase st.fs t else st.fs) t (mkLinkEntry o.useHardLinks piconRef))).Nodup
    apply nodup_setA
    split
    · exact nodup_eraseA st.fs t hinv.nodup_fs
    · exact hinv.nodup_fs

/-- Invariant preservation: the failed link-creation branch, with
origPL' the baseline after the deletion at the target (unchanged when
the target had no baseline entry). -/
theorem inv_createfail_branch (o : Options) (pf : PiconFiles) (fs00 : FS)
    (origPL0 : List (String × Ident)) (st : St) (picon servRef piconName t : String)
    (origPL' : List (String × Ident))
    (hinv : Inv o pf fs00 origPL0 st)
    (hun : lookupA st.piconLinks t = none)
    (hov : ¬ overrideHit st t)
    (ha : ∀ t', t' ≠ t → lookupA origPL' t' = lookupA st.origPiconLinks t')
    (hb : lookupA origPL' t = none) :
    Inv o pf fs00 origPL0
      (noPiconReport picon servRef
        (linkFailState piconName t { st with origPiconLinks := origPL' })) := by
  apply inv_noPiconReport
  have hnotfile : ∀ i, lookupA st.fs t ≠ some (.file i) := by
    intro i hf
    exact hov (overrideHit_of_file st t i hf)
  have hself : lookupA (linkFailState piconName t
      { st with origPiconLinks := origPL' }).fs t = none :=
    linkFailState_fs_self piconName t _
  have hne : ∀ t', t' ≠ t → lookupA (linkFailState piconName t
      { st with origPiconLinks := origPL' }).fs t' = lookupA st.fs t' := by
    intro t' hts
    exact linkFailState_fs_ne piconName t t' _ hts
  refine ⟨?_, ?_, ?_, ?_, ?_, ?_, ?_, ?_, ?_, ?_⟩
  · intro t' p hp
    by_cases hts : t' = t
    · subst hts
      rw [show (linkFailState piconName t'
        { st with origPiconLinks := origPL' }).piconLinks = st.piconLinks from rfl] at hp
      rw [hun] at hp
      exact Option.noConfusion hp
    · rw [show (linkFailState piconName t
        { st with origPiconLinks := origPL' }).piconLinks = st.piconLinks from rfl] at hp
      obtain ⟨nm, ref, h1, h2, h3⟩ := hinv.claims_linked t' p hp
      refine ⟨nm, ref, h1, ?_, ?_⟩
      · rw [hne t' hts]
        exact h2
      · rw [show (linkFailState piconName t
          { st with origPiconLinks := origPL' }).origPiconLinks = origPL' from rfl]
        rw [ha t' hts]
        exact h3
  · intro t' r hr
    rw [show (linkFailState piconName t
      { st with origPiconLinks := origPL' }).origPiconLinks = origPL' from rfl] at hr
    by_cases hts : t' = t
    · subst hts
      rw [hb] at hr
      exact Option.noConfusion hr
    · rw [ha t' hts] at hr
      rw [hne t' hts]
      exact hinv.orig_linked t' r hr
  · intro t' i
    by_cases hts : t' = t
    · subst hts
      constructor
      · intro h0
        exact absurd ((hinv.files_iff t' i).mp h0) (hnotfile i)
      · intro h0
        rw [hself] at h0
        exact Option.noConfusion h0
    · rw [show lookupA (linkFailState piconName t
        { st with origPiconLinks := origPL' }).fs t' = lookupA st.fs t' from hne t' hts]
      exact hinv.files_iff t' i
  · intro t' hmem
    obtain ⟨i, hfi⟩ := hinv.overrides_files t' hmem
    by_cases hts : t' = t
    · subst hts
      exact absurd hfi (hnotfile i)
    · refine ⟨i, ?_⟩
      rw [hne t' hts]
      exact hfi
  · intro t'
    show (t' ∈ st.overrides → ovCount t' (Msg.linkFailed piconName t :: st.log) ≤ 1) ∧
      (t' ∉ st.overrides → ovCount t' (Msg.linkFailed piconName t :: st.log) = 0)
    rw [ovCount_cons_nonov t' (Msg.linkFailed piconName t) st.log (by rfl)]
    exact hinv.ov_log t'
  · intro t' r hr
    by_cases hts : t' = t
    · subst hts
      refine Or.inr (Or.inr ?_)
      exact hself
    · rcases hinv.orig_hist t' r hr with h | h | h
      · refine Or.inl ?_
        rw [show (linkFailState piconName t
          { st with origPiconLinks := origPL' }).origPiconLinks = origPL' from rfl]
        rw [ha t' hts]
        exact h
      · exact Or.inr (Or.inl h)
      · refine Or.inr (Or.inr ?_)
        rw [hne t' hts]
        exact h
  · intro t' h0
    by_cases hts : t' = t
    · subst hts
      exact Or.inl hself
    · rcases hinv.none_hist t' h0 with h | h
      · refine Or.inl ?_
        rw [hne t' hts]
        exact h
      · exact Or.inr h
  · intro t' e hpng hfs'
    by_cases hts : t' = t
    · subst hts
      rw [hself] at hfs'
      exact Option.noConfusion hfs'
    · rw [hne t' hts] at hfs'
      exact hinv.png_ok t' e hpng hfs'
  · intro t' r hpng hfs'
    by_cases hts : t' = t
    · subst hts
      rw [hself] at hfs'
      exact Option.noConfusion hfs'
    · rw [hne t' hts] at hfs'
      rcases hinv.links_claimed t' r hpng hfs' with h | h
      · refine Or.inl ?_
        rw [show (linkFailState piconName t
          { st with origPiconLinks := origPL' }).origPiconLinks = origPL' from rfl]
        rw [ha t' hts]
        exact h
      · exact Or.inr h
  · exact linkFailState_fs_nodup piconName t _ hinv.nodup_fs

/-- The invariant is preserved by processing one expanded target. -/
theorem inv_processTarget (o : Options) (pf : PiconFiles) (fs00 : FS)
    (origPL0 : List (String × Ident)) (failAt : Nat → Bool)
    (servRef picon : String) (st : St) (srp : List String)
    (hinv : Inv o pf fs00 origPL0 st) :
    Inv o pf fs00 origPL0 (processTarget o pf failAt servRef picon st srp) := by
  rcases hpl : lookupA st.piconLinks (targetName srp) with _ | p
  case some =>
    rw [processTarget_of_claimed o pf failAt servRef picon p st srp hpl]
    split
    · exact hinv
    · exact inv_log_cons _ _ _ _ _ _ (fun t => rfl) hinv
  case none =>
    by_cases hov : overrideHit st (targetName srp)
    · rw [processTarget_of_override o pf failAt servRef picon st srp hpl hov]
      exact inv_override_branch o pf fs00 origPL0 st picon _ hinv hov
    · rcases hpf : lookupA pf picon with _ | ⟨piconName, piconRef⟩
      · rw [processTarget_of_no_icon o pf failAt servRef picon st srp hpl hov hpf]
        exact inv_noPiconReport _ _ _ _ _ _ _ hinv
      · rcases horig : lookupA st.origPiconLinks (targetName srp) with _ | r
        · by_cases hfail : failAt st.attempts = true
          · rw [processTarget_of_createfail o pf failAt servRef picon piconName piconRef
              st srp hpl hov hpf horig hfail]
            exact inv_createfail_branch o pf fs00 origPL0 st picon servRef piconName
              (targetName srp) st.origPiconLinks hinv hpl hov (fun t' _ => rfl) horig
          · have hfail' : failAt st.attempts = false := by
              cases h : failAt st.attempts
              · rfl
              · exact absurd h hfail
            rw [processTarget_of_create o pf failAt servRef picon piconName piconRef
              st srp hpl hov hpf
              (fun r h' => by rw [horig] at h'; exact Option.noConfusion h') hfail']
            exact inv_create_branch o pf fs00 origPL0 st picon piconName
              (targetName srp) piconRef hinv hpl hov hpf
        · by_cases hr : r = piconRef
          · subst hr
            rw [processTarget_of_match o pf failAt servRef picon piconName r r
              st srp hpl hov hpf horig rfl]
            exact inv_match_branch o pf fs00 origPL0 st picon piconName
              (targetName srp) r hinv hpl hpf horig
          · by_cases hfail : failAt st.attempts = true
            · rw [processTarget_of_createfail_mismatch o pf failAt servRef picon piconName
                piconRef r st srp hpl hov hpf horig hr hfail]
              exact inv_createfail_branch o pf fs00 origPL0 st picon servRef piconName
                (targetName srp) (eraseA st.origPiconLinks (targetName srp)) hinv hpl hov
                (fun t' hts => lookupA_eraseA_ne st.origPiconLinks (targetName srp) t'
                  (fun hh => hts hh.symm))
                (lookupA_eraseA_self _ _)
            · have hfail' : failAt st.attempts = false := by
                cases h : failAt st.attempts
                · rfl
                · exact absurd h hfail
              rw [processTarget_of_create o pf failAt servRef picon piconName piconRef
                st srp hpl hov hpf
                (fun r' h' => by
                  rw [horig] at h'
                  have := Option.some.inj h'
                  rw [← this]
                  exact hr) hfail']
              exact inv_create_branch o pf fs00 origPL0 st picon piconName
                (targetName srp) piconRef hinv hpl hov hpf

theorem inv_fold_var (o : Options) (pf : PiconFiles) (fs00 : FS)
    (origPL0 : List (String × Ident)) (st : St) (fv : Option (List String))
    (hinv : Inv o pf fs00 origPL0 st) :
    Inv o pf fs00 origPL0 { st with fold_var := fv } :=
  ⟨hinv.claims_linked, hinv.orig_linked, hinv.files_iff, hinv.overrides_files,
   hinv.ov_log, hinv.orig_hist, hinv.none_hist, hinv.png_ok, hinv.links_claimed,
   hinv.nodup_fs⟩

theorem inv_processTargets (o : Options) (pf : PiconFiles) (fs00 : FS)
    (origPL0 : List (String × Ident)) (failAt : Nat → Bool) (servRef picon : String) :
    ∀ (refs : List (List String)) (st : St), Inv o pf fs00 origPL0 st →
    Inv o pf fs00 origPL0 (refs.foldl (processTarget o pf failAt servRef picon) st) := by
  intro refs
  induction refs with
  | nil => intro st h; exact h
  | cons srp rest ih =>
    intro st h
    rw [List.foldl_cons]
    exact ih _ (inv_processTarget o pf fs00 origPL0 failAt servRef picon st srp h)

theorem inv_processRecord (o : Options) (pf : PiconFiles) (fs00 : FS)
    (origPL0 : List (String × Ident)) (failAt : Nat → Bool) (st : St)
    (servRef serviceName picon : String)
    (hinv : Inv o pf fs00 origPL0 st) :
    Inv o pf fs00 origPL0 (processRecord o pf failAt st servRef serviceName picon).1 := by
  rcases hexp : expandServRefs o st.fold_var
      ((pySplitColon servRef).take 10) serviceName with e | out
  · simp only [processRecord, hexp]
    exact hinv
  · simp only [processRecord, hexp]
    exact inv_processTargets o pf fs00 origPL0 failAt servRef picon out.refs
      { st with fold_var := out.fold_var }
      (inv_fold_var o pf fs00 origPL0 st out.fold_var hinv)

theorem inv_processLine (o : Options) (pf : PiconFiles) (fs00 : FS)
    (origPL0 : List (String × Ident)) (failAt : Nat → Bool) (st : St) (line : String)
    (hinv : Inv o pf fs00 origPL0 st) :
    Inv o pf fs00 origPL0 (processLine o pf failAt st line).1 := by
  unfold processLine
  by_cases hc : rstrip (stripComment line) = ""
  · rw [if_pos hc]
    exact hinv
  · rw [if_neg hc]
    rcases hw : pyWords (rstrip (stripComment line)) with _ | ⟨w1, ws⟩
    · exact inv_log_cons o pf fs00 origPL0 st (Msg.tooFew line) (fun t => rfl) hinv
    · rcases ws with _ | ⟨w2, ws2⟩
      · exact inv_log_cons o pf fs00 origPL0 st (Msg.tooFew line) (fun t => rfl) hinv
      · rcases ws2 with _ | ⟨w3, ws3⟩
        · exact inv_log_cons o pf fs00 origPL0 st (Msg.tooFew line) (fun t => rfl) hinv
        · rcases ws3 with _ | ⟨w4, ws4⟩
          · exact inv_processRecord o pf fs00 origPL0 failAt st w1 w2 w3 hinv
          · show Inv o pf fs00 origPL0
              (if (w1 :: w2 :: w3 :: w4 :: ws4).length > 3 then
                ({ st with log := Msg.tooMany line :: st.log }, (none : Option PyErr))
               else ({ st with log := Msg.tooFew line :: st.log }, none)).1
            have hlen : (w1 :: w2 :: w3 :: w4 :: ws4).length > 3 := by
              simp only [List.length_cons]
              omega
            rw [if_pos hlen]
            exact inv_log_cons o pf fs00 origPL0 st (Msg.tooMany line) (fun t => rfl) hinv

theorem inv_runLines (o : Options) (pf : PiconFiles) (fs00 : FS)
    (origPL0 : List (String × Ident)) (failAt : Nat → Bool) :
    ∀ (lines : List String) (st : St), Inv o pf fs00 origPL0 st →
    Inv o pf fs00 origPL0 (runLines o pf failAt st lines).1 := by
  intro lines
  induction lines with
  | nil => intro st h; exact h
  | cons l ls ih =>
    intro st h
    unfold runLines
    rcases hp : processLine o pf failAt st l with ⟨st', e⟩
    have hinv' : Inv o pf fs00 origPL0 st' := by
      have := inv_processLine o pf fs00 origPL0 failAt st l h
      rw [hp] at this
      exact this
    rcases e with _ | e
    · exact ih st' hinv'
    · exact hinv'

theorem initSt_eq_clean (o : Options) (fs0 : FS) (origPL : List (String × Ident))
    (wrong : List String) (h : o.cleanAll = true) :
    initSt o fs0 origPL wrong =
      { fs := removeAll (removeAll fs0 wrong) (keysA origPL), origPiconLinks := [],
        overrides := [], piconLinks := [], linkedPiconNames := [], linksMade := 0,
        removed := wrong.length + origPL.length, attempts := 0, log := [],
        fold_var := none } := by
  simp [initSt, h]

theorem initSt_eq_noclean (o : Options) (fs0 : FS) (origPL : List (String × Ident))
    (wrong : List String) (h : o.cleanAll = false) :
    initSt o fs0 origPL wrong =
      { fs := removeAll fs0 wrong, origPiconLinks := origPL,
        overrides := [], piconLinks := [], linkedPiconNames := [], linksMade := 0,
        removed := wrong.length, attempts := 0, log := [], fold_var := none } := by
  simp [initSt, h]

/-- The invariant holds in the state makeLinks starts from. -/
theorem inv_init (o : Options) (pf : PiconFiles) (fs0 : FS)
    (origPL : List (String × Ident)) (wrong : List String)
    (hnd : (keysA fs0).Nodup)
    (hscan : scanLinks o.useHardLinks fs0 = .ok (origPL, wrong)) :
    Inv o pf (initSt o fs0 origPL wrong).fs (initSt o fs0 origPL wrong).origPiconLinks
      (initSt o fs0 origPL wrong) := by
  obtain ⟨hA, hB⟩ := scanLinks_spec o.useHardLinks fs0 hnd origPL wrong hscan
  have hpng_ok : ∀ (F : FS), (∀ t e, lookupA F t = some e →
      (lookupA fs0 t = some e ∧ t ∉ wrong)) →
      ∀ t e, isPng t = true → lookupA F t = some e →
      (∃ i, e = .file i) ∨ e = .other ∨ ∃ r, e = mkLinkEntry o.useHardLinks r := by
    intro F hF t e hpng hle
    obtain ⟨hfs0, hnw⟩ := hF t e hle
    cases e with
    | file i => exact Or.inl ⟨i, rfl⟩
    | other => exact Or.inr (Or.inl rfl)
    | hlink i =>
      by_cases hm : ∀ r, Entry.hlink i ≠ mkLinkEntry o.useHardLinks r
      · exact absurd ((hB t).mpr ⟨hpng, Entry.hlink i, hfs0, Or.inr rfl, hm⟩) hnw
      · push_neg at hm
        obtain ⟨r, hr⟩ := hm
        exact Or.inr (Or.inr ⟨r, hr⟩)
    | slink res =>
      by_cases hm : ∀ r, Entry.slink res ≠ mkLinkEntry o.useHardLinks r
      · exact absurd ((hB t).mpr ⟨hpng, Entry.slink res, hfs0, Or.inl rfl, hm⟩) hnw
      · push_neg at hm
        obtain ⟨r, hr⟩ := hm
        exact Or.inr (Or.inr ⟨r, hr⟩)
  have horig_nw : ∀ t r, lookupA origPL t = some r → t ∉ wrong := by
    intro t r hr hmem
    obtain ⟨hpng, hfs0⟩ := (hA t r).mp hr
    obtain ⟨_, e, hle, _, hne⟩ := (hB t).mp hmem
    rw [hfs0] at hle
    exact hne r (Option.some.inj hle).symm
  by_cases hclean : o.cleanAll = true
  · rw [initSt_eq_clean o fs0 origPL wrong hclean]
    refine ⟨?_, ?_, ?_, ?_, ?_, ?_, ?_, ?_, ?_, ?_⟩
    · intro t p hp
      exact Option.noConfusion hp
    · intro t r hr
      exact Option.noConfusion hr
    · intro t i
      exact Iff.rfl
    · intro t h
      exact absurd h (List.not_mem_nil t)
    · intro t
      exact ⟨fun _ => by simp [ovCount], fun _ => by simp [ovCount]⟩
    · intro t r hr
      exact Option.noConfusion hr
    · intro t h
      exact Or.inl h
    · refine hpng_ok _ ?_
      intro t e hle
      rw [lookupA_removeAll] at hle
      by_cases hk : t ∈ keysA origPL
      · rw [if_pos hk] at hle
        exact Option.noConfusion hle
      · rw [if_neg hk] at hle
        rw [lookupA_removeAll] at hle
        by_cases hw : t ∈ wrong
        · rw [if_pos hw] at hle
          exact Option.noConfusion hle
        · rw [if_neg hw] at hle
          exact ⟨hle, hw⟩
    · intro t r hpng hle
      show lookupA ([] : List (String × Ident)) t = some r ∨ _
      rw [lookupA_removeAll] at hle
      by_cases hk : t ∈ keysA origPL
      · rw [if_pos hk] at hle
        exact Option.noConfusion hle
      · rw [if_neg hk] at hle
        rw [lookupA_removeAll] at hle
        by_cases hw : t ∈ wrong
        · rw [if_pos hw] at hle
          exact Option.noConfusion hle
        · rw [if_neg hw] at hle
          have := (hA t r).mpr ⟨hpng, hle⟩
          exact absurd (lookupA_some_mem origPL t r this) hk
    · exact nodup_removeAll _ _ (nodup_removeAll _ _ hnd)
  · have hclean' : o.cleanAll = false := by
      cases h : o.cleanAll
      · rfl
      · exact absurd h hclean
    rw [initSt_eq_noclean o fs0 origPL wrong hclean']
    refine ⟨?_, ?_, ?_, ?_, ?_, ?_, ?_, ?_, ?_, ?_⟩
    · intro t p hp
      exact Option.noConfusion hp
    · intro t r hr
      show lookupA (removeAll fs0 wrong) t = some (mkLinkEntry o.useHardLinks r)
      obtain ⟨hpng, hfs0⟩ := (hA t r).mp hr
      rw [lookupA_removeAll, if_neg (horig_nw t r hr)]
      exact hfs0
    · intro t i
      exact Iff.rfl
    · intro t h
      exact absurd h (List.not_mem_nil t)
    · intro t
      exact ⟨fun _ => by simp [ovCount], fun _ => by simp [ovCount]⟩
    · intro t r hr
      exact Or.inl hr
    · intro t h
      exact Or.inl h
    · refine hpng_ok _ ?_
      intro t e hle
      rw [lookupA_removeAll] at hle
      by_cases hw : t ∈ wrong
      · rw [if_pos hw] at hle
        exact Option.noConfusion hle
      · rw [if_neg hw] at hle
        exact ⟨hle, hw⟩
    · intro t r hpng hle
      rw [lookupA_removeAll] at hle
      by_cases hw : t ∈ wrong
      · rw [if_pos hw] at hle
        exact Option.noConfusion hle
      · rw [if_neg hw] at hle
        exact Or.inl ((hA t r).mpr ⟨hpng, hle⟩)
    · exact nodup_removeAll _ _ hnd

theorem lookupA_isSome_of_mem_keys {α : Type} (l : List (String × α)) (t : String)
    (h : t ∈ keysA l) : ∃ v, lookupA l t = some v := by
  induction l with
  | nil => exact absurd h (List.not_mem_nil t)
  | cons p rest ih =>
    by_cases hp : p.1 = t
    · exact ⟨p.2, by rw [lookupA, if_pos hp]⟩
    · have h0 : t ∈ p.1 :: keysA rest := h
      rcases List.mem_cons.mp h0 with h' | h'
      · exact absurd h'.symm hp
      · obtain ⟨v, hv⟩ := ih h'
        exact ⟨v, by rw [lookupA, if_neg hp]; exact hv⟩

/-- A plain-file entry of the scanned directory is neither scheduled for
wrong-kind removal nor kept as a baseline link. -/
theorem file_not_scanned (o : Options) (fs0 : FS) (origPL : List (String × Ident))
    (wrong : List String) (hnd : (keysA fs0).Nodup)
    (hscan : scanLinks o.useHardLinks fs0 = .ok (origPL, wrong))
    (t : String) (i : Ident) (hfile : lookupA fs0 t = some (.file i)) :
    t ∉ wrong ∧ t ∉ keysA origPL := by
  obtain ⟨hA, hB⟩ := scanLinks_spec o.useHardLinks fs0 hnd origPL wrong hscan
  constructor
  · intro hmem
    obtain ⟨_, e, hle, hkind, _⟩ := (hB t).mp hmem
    rw [hfile] at hle
    have : Entry.file i = e := Option.some.inj hle
    rw [← this] at hkind
    rcases hkind with h | h <;> exact FType.noConfusion h
  · intro hmem
    obtain ⟨r, hr⟩ := lookupA_isSome_of_mem_keys origPL t hmem
    obtain ⟨_, hfs0⟩ := (hA t r).mp hr
    rw [hfile] at hfs0
    exact mkLinkEntry_ne_file o.useHardLinks r i (Option.some.inj hfs0).symm

/-- A plain-file entry survives the initial scan-and-clean untouched. -/
theorem initSt_file (o : Options) (fs0 : FS) (origPL : List (String × Ident))
    (wrong : List String) (hnd : (keysA fs0).Nodup)
    (hscan : scanLinks o.useHardLinks fs0 = .ok (origPL, wrong))
    (t : String) (i : Ident) (hfile : lookupA fs0 t = some (.file i)) :
    lookupA (initSt o fs0 origPL wrong).fs t = some (.file i) := by
  obtain ⟨hw, hk⟩ := file_not_scanned o fs0 origPL wrong hnd hscan t i hfile
  by_cases hclean : o.cleanAll = true
  · rw [initSt_eq_clean o fs0 origPL wrong hclean]
    show lookupA (removeAll (removeAll fs0 wrong) (keysA origPL)) t = some (.file i)
    rw [lookupA_removeAll, if_neg hk, lookupA_removeAll, if_neg hw]
    exact hfile
  · have hclean' : o.cleanAll = false := by
      cases h : o.cleanAll
      · rfl
      · exact absurd h hclean
    rw [initSt_eq_noclean o fs0 origPL wrong hclean']
    show lookupA (removeAll fs0 wrong) t = some (.file i)
    rw [lookupA_removeAll, if_neg hw]
    exact hfile

/-- Core of the override invariant: a pre-existing plain file survives
any whole run exactly as it was, and its override message appears at
most once. -/
theorem fullRun_file_preserved (o : Options) (pf : PiconFiles) (failAt : Nat → Bool)
    (fs0 : FS) (lines : List String) (t : String) (i : Ident)
    (hnd : (keysA fs0).Nodup)
    (hfile : lookupA fs0 t = some (.file i)) :
    lookupA (fullRun o pf failAt fs0 lines).st.fs t = some (.file i) ∧
    ovCount t (fullRun o pf failAt fs0 lines).st.log ≤ 1 := by
  rcases hscan : scanLinks o.useHardLinks fs0 with u | ⟨origPL, wrong⟩
  · have hfr : fullRun o pf failAt fs0 lines = ⟨initSt o fs0 [] [], some .scanFail⟩ := by
      simp only [fullRun, hscan]
    rw [hfr]
    constructor
    · show lookupA (initSt o fs0 [] []).fs t = some (.file i)
      by_cases hclean : o.cleanAll = true
      · rw [initSt_eq_clean o fs0 [] [] hclean]
        exact hfile
      · have hclean' : o.cleanAll = false := by
          cases h : o.cleanAll
          · rfl
          · exact absurd h hclean
        rw [initSt_eq_noclean o fs0 [] [] hclean']
        exact hfile
    · show ovCount t (initSt o fs0 [] []).log ≤ 1
      by_cases hclean : o.cleanAll = true
      · rw [initSt_eq_clean o fs0 [] [] hclean]
        simp [ovCount]
      · have hclean' : o.cleanAll = false := by
          cases h : o.cleanAll
          · rfl
          · exact absurd h hclean
        rw [initSt_eq_noclean o fs0 [] [] hclean']
        simp [ovCount]
  · have hinv0 := inv_init o pf fs0 origPL wrong hnd hscan
    have hst0file := initSt_file o fs0 origPL wrong hnd hscan t i hfile
    rcases hrun : runLines o pf failAt (initSt o fs0 origPL wrong) lines with ⟨stF, e⟩
    have hinvF : Inv o pf (initSt o fs0 origPL wrong).fs
        (initSt o fs0 origPL wrong).origPiconLinks stF := by
      have := inv_runLines o pf (initSt o fs0 origPL wrong).fs
        (initSt o fs0 origPL wrong).origPiconLinks failAt lines
        (initSt o fs0 origPL wrong) hinv0
      rw [hrun] at this
      exact this
    have hFfile : lookupA stF.fs t = some (.file i) :=
      (hinvF.files_iff t i).mp hst0file
    have hcount : ovCount t stF.log ≤ 1 := by
      by_cases hmem : t ∈ stF.overrides
      · exact (hinvF.ov_log t).1 hmem
      · rw [(hinvF.ov_log t).2 hmem]
        exact Nat.zero_le 1
    rcases e with _ | e
    · have hfr : fullRun o pf failAt fs0 lines =
          ⟨{ stF with
             fs := removeAll stF.fs (keysA stF.origPiconLinks),
             removed := stF.removed + stF.origPiconLinks.length,
             origPiconLinks := [] }, none⟩ := by
        simp only [fullRun, hscan, hrun]
      rw [hfr]
      refine ⟨?_, hcount⟩
      show lookupA (removeAll stF.fs (keysA stF.origPiconLinks)) t = some (.file i)
      have horignone : lookupA stF.origPiconLinks t = none := by
        rcases h : lookupA stF.origPiconLinks t with _ | r
        · rfl
        · have := hinvF.orig_linked t r h
          rw [hFfile] at this
          exact absurd (Option.some.inj this).symm (mkLinkEntry_ne_file o.useHardLinks r i)
      rw [lookupA_removeAll, if_neg (lookupA_none_not_mem _ _ horignone)]
      exact hFfile
    · have hfr : fullRun o pf failAt fs0 lines = ⟨stF, some (.expandErr e)⟩ := by
        simp only [fullRun, hscan, hrun]
      rw [hfr]
      exact ⟨hFfile, hcount⟩

/-! ## Claim C2: pre-existing plain files are never touched -/

/-- C2: a target that exists as a plain regular file before the run is
still exactly that file after the whole run — whether the run completed,
aborted in the scan, or crashed during makeLinks — it is never scheduled
by the wrong-kind cleanup (it stays in place), never removed by the
stale cleanup, and the reconciliation pass only skips it, logging the
override at most once for that target; all of this for every database
content, option set and failure pattern. -/
theorem c2_override_preserved (o : Options) (pf : PiconFiles) (failAt : Nat → Bool)
    (fs0 : FS) (lines : List String) (t : String) (i : Ident)
    (hnd : (keysA fs0).Nodup)
    (hfile : lookupA fs0 t = some (.file i)) :
    lookupA (fullRun o pf failAt fs0 lines).st.fs t = some (.file i) ∧
    ovCount t (fullRun o pf failAt fs0 lines).st.log ≤ 1 :=
  fullRun_file_preserved o pf failAt fs0 lines t i hnd hfile

/-- C2 witness: a concrete run over a directory holding a plain file at
the target of both records leaves the file in place and logs the
override once. -/
theorem c2_override_preserved_witness :
    lookupA (fullRun ⟨true, false, false, false, false, false, false⟩
        [("a", ("a.png", (1, 10)))] allOk [("1_0_1_1_1_1_0_0_0_0.png", .file (5, 5))]
        ["1:0:1:1:1:1:0:0:0:0 X a", "1:0:1:1:1:1:0:0:0:0 Y b"]).st.fs
      "1_0_1_1_1_1_0_0_0_0.png" = some (.file (5, 5)) ∧
    ovCount "1_0_1_1_1_1_0_0_0_0.png"
      (fullRun ⟨true, false, false, false, false, false, false⟩
        [("a", ("a.png", (1, 10)))] allOk [("1_0_1_1_1_1_0_0_0_0.png", .file (5, 5))]
        ["1:0:1:1:1:1:0:0:0:0 X a", "1:0:1:1:1:1:0:0:0:0 Y b"]).st.log ≤ 1 :=
  c2_override_preserved ⟨true, false, false, false, false, false, false⟩
    [("a", ("a.png", (1, 10)))] allOk [("1_0_1_1_1_1_0_0_0_0.png", .file (5, 5))]
    ["1:0:1:1:1:1:0:0:0:0 X a", "1:0:1:1:1:1:0:0:0:0 Y b"]
    "1_0_1_1_1_1_0_0_0_0.png" (5, 5) (by decide) (by decide)

/-! ## Claim C4: stale links are removed, overrides never -/

/-- C4: in a completed run, every .png link of the configured kind that
existed before the run but whose name was not claimed by any record of
the current database is gone from the directory by end of run; and
plain-file overrides are never part of any removal — they survive the
run unchanged. -/
theorem c4_stale_removed (o : Options) (pf : PiconFiles) (failAt : Nat → Bool)
    (fs0 : FS) (lines : List String) (t : String) (r : Ident)
    (hnd : (keysA fs0).Nodup)
    (hok : (fullRun o pf failAt fs0 lines).err = none)
    (hpng : isPng t = true)
    (hlink : lookupA fs0 t = some (mkLinkEntry o.useHardLinks r))
    (hunclaimed : lookupA (fullRun o pf failAt fs0 lines).st.piconLinks t = none) :
    lookupA (fullRun o pf failAt fs0 lines).st.fs t = none ∧
    (∀ t' i', lookupA fs0 t' = some (.file i') →
      lookupA (fullRun o pf failAt fs0 lines).st.fs t' = some (.file i')) := by
  refine ⟨?_, fun t' i' hf => (fullRun_file_preserved o pf failAt fs0 lines t' i' hnd hf).1⟩
  rcases hscan : scanLinks o.useHardLinks fs0 with u | ⟨origPL, wrong⟩
  · have hfr : fullRun o pf failAt fs0 lines = ⟨initSt o fs0 [] [], some .scanFail⟩ := by
      simp only [fullRun, hscan]
    rw [hfr] at hok
    exact Option.noConfusion hok
  · obtain ⟨hA, hB⟩ := scanLinks_spec o.useHardLinks fs0 hnd origPL wrong hscan
    have hinv0 := inv_init o pf fs0 origPL wrong hnd hscan
    rcases hrun : runLines o pf failAt (initSt o fs0 origPL wrong) lines with ⟨stF, e⟩
    rcases e with _ | e
    all_goals
      first
      | (have hfr : fullRun o pf failAt fs0 lines = ⟨stF, some (.expandErr e)⟩ := by
           simp only [fullRun, hscan, hrun]
         rw [hfr] at hok
         exact Option.noConfusion hok)
      | skip
    have hfr : fullRun o pf failAt fs0 lines =
        ⟨{ stF with
           fs := removeAll stF.fs (keysA stF.origPiconLinks),
           removed := stF.removed + stF.origPiconLinks.length,
           origPiconLinks := [] }, none⟩ := by
      simp only [fullRun, hscan, hrun]
    rw [hfr] at hunclaimed ⊢
    have hunclaimed' : lookupA stF.piconLinks t = none := hunclaimed
    have hinvF : Inv o pf (initSt o fs0 origPL wrong).fs
        (initSt o fs0 origPL wrong).origPiconLinks stF := by
      have := inv_runLines o pf (initSt o fs0 origPL wrong).fs
        (initSt o fs0 origPL wrong).origPiconLinks failAt lines
        (initSt o fs0 origPL wrong) hinv0
      rw [hrun] at this
      exact this
    show lookupA (removeAll stF.fs (keysA stF.origPiconLinks)) t = none
    have hworig : lookupA origPL t = some r := (hA t r).mpr ⟨hpng, hlink⟩
    have hnw : t ∉ wrong := by
      intro hmem
      obtain ⟨_, e', hle, _, hne⟩ := (hB t).mp hmem
      rw [hlink] at hle
      exact hne r (Option.some.inj hle).symm
    by_cases hclean : o.cleanAll = true
    · have hst0none : lookupA (initSt o fs0 origPL wrong).fs t = none := by
        rw [initSt_eq_clean o fs0 origPL wrong hclean]
        show lookupA (removeAll (removeAll fs0 wrong) (keysA origPL)) t = none
        rw [lookupA_removeAll, if_pos (lookupA_some_mem origPL t r hworig)]
      rcases hinvF.none_hist t hst0none with h | h
      · rw [lookupA_removeAll]
        by_cases hk : t ∈ keysA stF.origPiconLinks
        · rw [if_pos hk]
        · rw [if_neg hk]
          exact h
      · rw [hunclaimed'] at h
        exact Bool.noConfusion h
    · have hclean' : o.cleanAll = false := by
        cases h : o.cleanAll
        · rfl
        · exact absurd h hclean
      have horig0 : lookupA (initSt o fs0 origPL wrong).origPiconLinks t = some r := by
        rw [initSt_eq_noclean o fs0 origPL wrong hclean']
        exact hworig
      rcases hinvF.orig_hist t r horig0 with h | h | h
      · rw [lookupA_removeAll, if_pos (lookupA_some_mem stF.origPiconLinks t r h)]
      · rw [hunclaimed'] at h
        exact Bool.noConfusion h
      · rw [lookupA_removeAll]
        by_cases hk : t ∈ keysA stF.origPiconLinks
        · rw [if_pos hk]
        · rw [if_neg hk]
          exact h

/-- C4 witness: a stale pre-existing soft link is removed; a plain file
stays. -/
theorem c4_stale_removed_witness :
    lookupA (fullRun ⟨true, false, false, false, false, false, false⟩
        [("a", ("a.png", (1, 10)))] allOk
        [("stale.png", .slink (some (9, 9))), ("keep.png", .file (5, 5))]
        ["1:0:1:1:1:1:0:0:0:0 X a"]).st.fs "stale.png" = none ∧
    (∀ t' i', lookupA [("stale.png", Entry.slink (some (9, 9))),
        ("keep.png", Entry.file (5, 5))] t' = some (.file i') →
      lookupA (fullRun ⟨true, false, false, false, false, false, false⟩
        [("a", ("a.png", (1, 10)))] allOk
        [("stale.png", .slink (some (9, 9))), ("keep.png", .file (5, 5))]
        ["1:0:1:1:1:1:0:0:0:0 X a"]).st.fs t' = some (.file i')) :=
  c4_stale_removed ⟨true, false, false, false, false, false, false⟩
    [("a", ("a.png", (1, 10)))] allOk
    [("stale.png", .slink (some (9, 9))), ("keep.png", .file (5, 5))]
    ["1:0:1:1:1:1:0:0:0:0 X a"] "stale.png" (9, 9)
    (by decide) (by decide) (by decide) (by decide) (by decide)

/-- An unclaimed, non-override target whose icon is in the inventory is
claimed by its processing when the creation oracle does not fail: either
the baseline entry matches by identity, or a link is created. -/
theorem processTarget_claims (o : Options) (pf : PiconFiles) (failAt : Nat → Bool)
    (servRef picon piconName : String) (piconRef : Ident) (st : St) (srp : List String)
    (hun : lookupA st.piconLinks (targetName srp) = none)
    (hov : ¬ overrideHit st (targetName srp))
    (hpf : lookupA pf picon = some (piconName, piconRef))
    (hfail : failAt st.attempts = false) :
    lookupA (processTarget o pf failAt servRef picon st srp).piconLinks
      (targetName srp) = some picon := by
  rcases horig : lookupA st.origPiconLinks (targetName srp) with _ | r
  · rw [processTarget_of_create o pf failAt servRef picon piconName piconRef st srp
      hun hov hpf (fun r h' => by rw [horig] at h'; exact Option.noConfusion h') hfail]
    exact lookupA_setA_self _ _ _
  · by_cases hr : r = piconRef
    · subst hr
      rw [processTarget_of_match o pf failAt servRef picon piconName r r st srp
        hun hov hpf horig rfl]
      exact lookupA_setA_self _ _ _
    · rw [processTarget_of_create o pf failAt servRef picon piconName piconRef st srp
        hun hov hpf
        (fun r' h' => by
          rw [horig] at h'
          have := Option.some.inj h'
          rw [← this]
          exact hr) hfail]
      exact lookupA_setA_self _ _ _

/-! ## Claim C1: claimed targets are correctly linked -/

/-- C1 (amended): in a completed run, (i) every target claimed for an
icon key ends the run as a link of the configured kind whose identity is
that key's inventory identity — the first record to claim a target
determines its link; and (ii) a record whose icon key is in the
inventory and whose target is not an override and not already claimed by
an earlier record does claim that target when the filesystem cooperates
(no creation failure). -/
theorem c1_target_linked (o : Options) (pf : PiconFiles) (failAt : Nat → Bool)
    (fs0 : FS) (lines : List String)
    (hnd : (keysA fs0).Nodup)
    (hok : (fullRun o pf failAt fs0 lines).err = none) :
    (∀ t p nm ref, lookupA (fullRun o pf failAt fs0 lines).st.piconLinks t = some p →
      lookupA pf p = some (nm, ref) →
      lookupA (fullRun o pf failAt fs0 lines).st.fs t =
        some (mkLinkEntry o.useHardLinks ref)) ∧
    (∀ (failAt' : Nat → Bool) (servRef picon piconName : String) (piconRef : Ident)
        (st : St) (srp : List String),
      lookupA st.piconLinks (targetName srp) = none →
      ¬ overrideHit st (targetName srp) →
      lookupA pf picon = some (piconName, piconRef) →
      failAt' st.attempts = false →
      lookupA (processTarget o pf failAt' servRef picon st srp).piconLinks
        (targetName srp) = some picon) := by
  refine ⟨?_, fun failAt' servRef picon piconName piconRef st srp h1 h2 h3 h4 =>
    processTarget_claims o pf failAt' servRef picon piconName piconRef st srp h1 h2 h3 h4⟩
  rcases hscan : scanLinks o.useHardLinks fs0 with u | ⟨origPL, wrong⟩
  · have hfr : fullRun o pf failAt fs0 lines = ⟨initSt o fs0 [] [], some .scanFail⟩ := by
      simp only [fullRun, hscan]
    rw [hfr] at hok
    exact Option.noConfusion hok
  · have hinv0 := inv_init o pf fs0 origPL wrong hnd hscan
    rcases hrun : runLines o pf failAt (initSt o fs0 origPL wrong) lines with ⟨stF, e⟩
    rcases e with _ | e
    · have hfr : fullRun o pf failAt fs0 lines =
          ⟨{ stF with
             fs := removeAll stF.fs (keysA stF.origPiconLinks),
             removed := stF.removed + stF.origPiconLinks.length,
             origPiconLinks := [] }, none⟩ := by
        simp only [fullRun, hscan, hrun]
      rw [hfr]
      intro t p nm ref hp hpf
      have hinvF : Inv o pf (initSt o fs0 origPL wrong).fs
          (initSt o fs0 origPL wrong).origPiconLinks stF := by
        have := inv_runLines o pf (initSt o fs0 origPL wrong).fs
          (initSt o fs0 origPL wrong).origPiconLinks failAt lines
          (initSt o fs0 origPL wrong) hinv0
        rw [hrun] at this
        exact this
      have hp' : lookupA stF.piconLinks t = some p := hp
      obtain ⟨nm', ref', hpf', hfs', horignone⟩ := hinvF.claims_linked t p hp'
      rw [hpf] at hpf'
      have : (nm, ref) = (nm', ref') := Option.some.inj hpf'
      injection this with h1 h2
      show lookupA (removeAll stF.fs (keysA stF.origPiconLinks)) t =
        some (mkLinkEntry o.useHardLinks ref)
      rw [lookupA_removeAll, if_neg (lookupA_none_not_mem _ _ horignone), h2]
      exact hfs'
    · have hfr : fullRun o pf failAt fs0 lines = ⟨stF, some (.expandErr e)⟩ := by
        simp only [fullRun, hscan, hrun]
      rw [hfr] at hok
      exact Option.noConfusion hok

/-- C1 witness: the single-record run claims its target and links it to
the inventory identity; the claiming step fires on a fresh state. -/
theorem c1_target_linked_witness :
    lookupA (fullRun ⟨true, false, false, false, false, false, false⟩
        [("a", ("a.png", (1, 10)))] allOk [] ["1:0:1:1:1:1:0:0:0:0 X a"]).st.fs
      "1_0_1_1_1_1_0_0_0_0.png" = some (mkLinkEntry false (1, 10)) ∧
    lookupA (processTarget ⟨true, false, false, false, false, false, false⟩
        [("a", ("a.png", (1, 10)))] allOk "sr" "a"
        ⟨[], [], [], [], [], 0, 0, 0, [], none⟩ ["x"]).piconLinks
      (targetName ["x"]) = some "a" := by
  have h := c1_target_linked ⟨true, false, false, false, false, false, false⟩
    [("a", ("a.png", (1, 10)))] allOk [] ["1:0:1:1:1:1:0:0:0:0 X a"]
    (by decide) (by decide)
  exact ⟨h.1 "1_0_1_1_1_1_0_0_0_0.png" "a" "a.png" (1, 10) (by decide) (by decide),
    h.2 allOk "sr" "a" "a.png" (1, 10) ⟨[], [], [], [], [], 0, 0, 0, [], none⟩ ["x"]
      (by decide) (by decide) (by decide) (by decide)⟩

/-! ## Claim C1 counterexample: duplicate-target conflicts -/

/-- C1 (counterexample): two records expand to the same target name with
different icon keys, both keys in the inventory, no override anywhere.
The run completes, yet the target is a link whose identity is the FIRST
record's icon identity (1, 10), not the second record's (1, 11) — so
"for every record ... the target's identity equals the inventory entry's
identity for that icon key" fails at the second record. -/
theorem c1_counterexample :
    (fullRun ⟨true, false, false, false, false, false, false⟩
        [("a", ("a.png", (1, 10))), ("b", ("b.png", (1, 11)))] allOk []
        ["1:0:1:1:1:1:0:0:0:0 X a", "1:0:1:1:1:1:0:0:0:0 Y b"]).err = none ∧
    lookupA [("a", ("a.png", ((1 : Nat), (10 : Nat)))), ("b", ("b.png", (1, 11)))] "b" =
      some ("b.png", (1, 11)) ∧
    (fullRun ⟨true, false, false, false, false, false, false⟩
        [("a", ("a.png", (1, 10))), ("b", ("b.png", (1, 11)))] allOk []
        ["1:0:1:1:1:1:0:0:0:0 X a", "1:0:1:1:1:1:0:0:0:0 Y b"]).st.overrides = [] ∧
    lookupA (fullRun ⟨true, false, false, false, false, false, false⟩
        [("a", ("a.png", (1, 10))), ("b", ("b.png", (1, 11)))] allOk []
        ["1:0:1:1:1:1:0:0:0:0 X a", "1:0:1:1:1:1:0:0:0:0 Y b"]).st.fs
        "1_0_1_1_1_1_0_0_0_0.png" = some (.slink (some (1, 10))) ∧
    Entry.slink (some (1, 10)) ≠ mkLinkEntry false (1, 11) := by
  refine ⟨rfl, rfl, rfl, rfl, by decide⟩

/-! ## Idempotence machinery: piconLinks evolution and scan totality -/

/-- Processing one target either leaves piconLinks unchanged or claims
the (previously unclaimed) target name. -/
theorem processTarget_pl_cases (o : Options) (pf : PiconFiles) (failAt : Nat → Bool)
    (servRef picon : String) (st : St) (srp : List String) :
    (processTarget o pf failAt servRef picon st srp).piconLinks = st.piconLinks ∨
    ((processTarget o pf failAt servRef picon st srp).piconLinks =
        setA st.piconLinks (targetName srp) picon ∧
      lookupA st.piconLinks (targetName srp) = none) := by
  rcases hpl : lookupA st.piconLinks (targetName srp) with _ | p
  case some =>
    rw [processTarget_of_claimed o pf failAt servRef picon p st srp hpl]
    left
    split <;> rfl
  case none =>
    by_cases hov : overrideHit st (targetName srp)
    · rw [processTarget_of_override o pf failAt servRef picon st srp hpl hov]
      exact Or.inl rfl
    · rcases hpf : lookupA pf picon with _ | ⟨piconName, piconRef⟩
      · rw [processTarget_of_no_icon o pf failAt servRef picon st srp hpl hov hpf]
        exact Or.inl (noPiconReport_piconLinks _ _ _)
      · rcases horig : lookupA st.origPiconLinks (targetName srp) with _ | r
        · by_cases hfail : failAt st.attempts = true
          · rw [processTarget_of_createfail o pf failAt servRef picon piconName piconRef
              st srp hpl hov hpf horig hfail]
            exact Or.inl (noPiconReport_piconLinks _ _ _)
          · have hfail' : failAt st.attempts = false := by
              cases h : failAt st.attempts
              · rfl
              · exact absurd h hfail
            rw [processTarget_of_create o pf failAt servRef picon piconName piconRef
              st srp hpl hov hpf
              (fun r h' => by rw [horig] at h'; exact Option.noConfusion h') hfail']
            exact Or.inr ⟨rfl, rfl⟩
        · by_cases hr : r = piconRef
          · subst hr
            rw [processTarget_of_match o pf failAt servRef picon piconName r r st srp
              hpl hov hpf horig rfl]
            exact Or.inr ⟨rfl, rfl⟩
          · by_cases hfail : failAt st.attempts = true
            · rw [processTarget_of_createfail_mismatch o pf failAt servRef picon piconName
                piconRef r st srp hpl hov hpf horig hr hfail]
              exact Or.inl (noPiconReport_piconLinks _ _ _)
            · have hfail' : failAt st.attempts = false := by
                cases h : failAt st.attempts
                · rfl
                · exact absurd h hfail
              rw [processTarget_of_create o pf failAt servRef picon piconName piconRef
                st srp hpl hov hpf
                (fun r' h' => by
                  rw [horig] at h'
                  have := Option.some.inj h'
                  rw [← this]
                  exact hr) hfail']
              exact Or.inr ⟨rfl, rfl⟩

/-- A claimed, non-override target with its icon in the inventory has,
after processing with a successful oracle, exactly the claim map with the
target claimed. -/
theorem processTarget_claims_pl (o : Options) (pf : PiconFiles) (failAt : Nat → Bool)
    (servRef picon piconName : String) (piconRef : Ident) (st : St) (srp : List String)
    (hun : lookupA st.piconLinks (targetName srp) = none)
    (hov : ¬ overrideHit st (targetName srp))
    (hpf : lookupA pf picon = some (piconName, piconRef))
    (hfail : failAt st.attempts = false) :
    (processTarget o pf failAt servRef picon st srp).piconLinks =
      setA st.piconLinks (targetName srp) picon := by
  rcases horig : lookupA st.origPiconLinks (targetName srp) with _ | r
  · rw [processTarget_of_create o pf failAt servRef picon piconName piconRef st srp
      hun hov hpf (fun r h' => by rw [horig] at h'; exact Option.noConfusion h') hfail]
  · by_cases hr : r = piconRef
    · subst hr
      rw [processTarget_of_match o pf failAt servRef picon piconName r r st srp
        hun hov hpf horig rfl]
    · rw [processTarget_of_create o pf failAt servRef picon piconName piconRef st srp
        hun hov hpf
        (fun r' h' => by
          rw [horig] at h'
          have := Option.some.inj h'
          rw [← this]
          exact hr) hfail]

theorem processTarget_pl_mono (o : Options) (pf : PiconFiles) (failAt : Nat → Bool)
    (servRef picon : String) (st : St) (srp : List String) (t p : String)
    (h : lookupA st.piconLinks t = some p) :
    lookupA (processTarget o pf failAt servRef picon st srp).piconLinks t = some p := by
  rcases processTarget_pl_cases o pf failAt servRef picon st srp with hc | ⟨hc, hn⟩
  · rw [hc]
    exact h
  · rw [hc]
    by_cases hts : targetName srp = t
    · rw [hts] at hn
      rw [hn] at h
      exact Option.noConfusion h
    · rw [lookupA_setA_ne _ _ _ _ hts]
      exact h

theorem processTargets_pl_mono (o : Options) (pf : PiconFiles) (failAt : Nat → Bool)
    (servRef picon : String) :
    ∀ (refs : List (List String)) (st : St) (t p : String),
    lookupA st.piconLinks t = some p →
    lookupA ((refs.foldl (processTarget o pf failAt servRef picon) st)).piconLinks t =
      some p := by
  intro refs
  induction refs with
  | nil => intro st t p h; exact h
  | cons srp rest ih =>
    intro st t p h
    rw [List.foldl_cons]
    exact ih _ t p (processTarget_pl_mono o pf failAt servRef picon st srp t p h)

theorem processLine_pl_mono (o : Options) (pf : PiconFiles) (failAt : Nat → Bool)
    (st : St) (line : String) (t p : String)
    (h : lookupA st.piconLinks t = some p) :
    lookupA (processLine o pf failAt st line).1.piconLinks t = some p := by
  unfold processLine
  by_cases hc : rstrip (stripComment line) = ""
  · rw [if_pos hc]
    exact h
  · rw [if_neg hc]
    rcases hw : pyWords (rstrip (stripComment line)) with _ | ⟨w1, ws⟩
    · exact h
    · rcases ws with _ | ⟨w2, ws2⟩
      · exact h
      · rcases ws2 with _ | ⟨w3, ws3⟩
        · exact h
        · rcases ws3 with _ | ⟨w4, ws4⟩
          · rcases hexp : expandServRefs o st.fold_var
                ((pySplitColon w1).take 10) w2 with e | out
            · show lookupA (processRecord o pf failAt st w1 w2 w3).1.piconLinks t = some p
              simp only [processRecord, hexp]
              exact h
            · show lookupA (processRecord o pf failAt st w1 w2 w3).1.piconLinks t = some p
              simp only [processRecord, hexp]
              exact processTargets_pl_mono o pf failAt w1 w3 out.refs
                { st with fold_var := out.fold_var } t p h
          · show lookupA (if (w1 :: w2 :: w3 :: w4 :: ws4).length > 3 then
                ({ st with log := Msg.tooMany line :: st.log }, (none : Option PyErr))
              else ({ st with log := Msg.tooFew line :: st.log }, none)).1.piconLinks t =
              some p
            split <;> exact h

theorem runLines_pl_mono (o : Options) (pf : PiconFiles) (failAt : Nat → Bool) :
    ∀ (lines : List String) (st : St) (t p : String),
    lookupA st.piconLinks t = some p →
    lookupA (runLines o pf failAt st lines).1.piconLinks t = some p := by
  intro lines
  induction lines with
  | nil => intro st t p h; exact h
  | cons l ls ih =>
    intro st t p h
    unfold runLines
    rcases hp : processLine o pf failAt st l with ⟨st', e⟩
    have h' : lookupA st'.piconLinks t = some p := by
      have := processLine_pl_mono o pf failAt st l t p h
      rw [hp] at this
      exact this
    rcases e with _ | e
    · exact ih st' t p h'
    · exact h'

theorem lookupA_eq_of_mem_nodup {α : Type} (l : List (String × α)) (n : String) (e : α)
    (hnd : (keysA l).Nodup) (hmem : (n, e) ∈ l) : lookupA l n = some e := by
  induction l with
  | nil => exact absurd hmem (List.not_mem_nil _)
  | cons p rest ih =>
    have hnd0 : (p.1 :: keysA rest).Nodup := hnd
    rcases List.mem_cons.mp hmem with h | h
    · rw [← h]
      show lookupA ((n, e) :: rest) n = some e
      rw [lookupA, if_pos rfl]
    · have hne : p.1 ≠ n := by
        intro hh
        have : n ∈ keysA rest := by
          have : (n, e).1 ∈ keysA rest := List.mem_map_of_mem Prod.fst h
          exact this
        rw [hh] at hnd0
        exact (List.nodup_cons.mp hnd0).1 this
      rw [lookupA, if_neg hne]
      exact ih (List.nodup_cons.mp hnd0).2 h

theorem eq_nil_of_lookupA_none {α : Type} (l : List (String × α))
    (h : ∀ t, lookupA l t = none) : l = [] := by
  cases l with
  | nil => rfl
  | cons p rest =>
    have := h p.1
    rw [show lookupA (p :: rest) p.1 = some p.2 from by rw [lookupA, if_pos rfl]] at this
    exact Option.noConfusion this

/-- The scan succeeds whenever no .png entry is a dangling link. -/
theorem scanLinks_exists_ok (hard : Bool) :
    ∀ (fs : FS), (∀ n e, (n, e) ∈ fs → isPng n = true →
      (entryRefType e = .isSLink ∨ entryRefType e = .isHLink) → entryLinkRef e ≠ none) →
    ∃ o w, scanLinks hard fs = .ok (o, w) := by
  intro fs
  induction fs with
  | nil => exact fun _ => ⟨[], [], rfl⟩
  | cons p rest ih =>
    intro h
    obtain ⟨n, e⟩ := p
    obtain ⟨o', w', hrest⟩ := ih (fun n' e' hm => h n' e' (List.mem_cons.mpr (Or.inr hm)))
    by_cases hpng : isPng n = true
    · by_cases hk : entryRefType e = .isSLink ∨ entryRefType e = .isHLink
      · rcases href : entryLinkRef e with _ | r0
        · exact absurd href (h n e (List.mem_cons.mpr (Or.inl rfl)) hpng hk)
        · rw [scanLinks_cons_link hard n e rest r0 hpng hk href, hrest]
          by_cases hm : hard = true ↔ entryRefType e = .isHLink
          · exact ⟨(n, r0) :: o', w', by simp [Except.map, hm]⟩
          · exact ⟨o', n :: w', by simp [Except.map, hm]⟩
      · rw [scanLinks_cons_nonlink hard n e rest
          (fun hs => hk (Or.inl hs)) (fun hs => hk (Or.inr hs))]
        exact ⟨o', w', hrest⟩
    · have hpng' : isPng n = false := by
        cases hh : isPng n
        · rfl
        · exact absurd hh hpng
      rw [scanLinks_cons_nonpng hard n e rest hpng']
      exact ⟨o', w', hrest⟩

/-- The simulation relation between the first run's trace (st1) and the
second run's trace (st2), relative to the first run's final directory
fs1 and the second run's scanned baseline origPL2: the second run has
the same claims, overrides and fold variable, never touches fs1, makes
no links, and its remaining baseline is the scan minus the claims. -/
structure Sim (o : Options) (pf : PiconFiles) (fs1 : FS)
    (origPL2 : List (String × Ident)) (st1 st2 : St) : Prop where
  pl_eq : ∀ t, lookupA st2.piconLinks t = lookupA st1.piconLinks t
  ov_eq : ∀ t, t ∈ st2.overrides ↔ t ∈ st1.overrides
  fs_eq : st2.fs = fs1
  fv_eq : st2.fold_var = st1.fold_var
  made0 : st2.linksMade = 0
  rem0 : st2.removed = 0
  orig2 : ∀ t, lookupA st2.origPiconLinks t =
    if (lookupA st2.piconLinks t).isSome = true then none else lookupA origPL2 t

/-- Changes that only touch the log (and counters the relation ignores
on the first-run side) preserve the simulation. -/
theorem sim_transfer (o : Options) (pf : PiconFiles) (fs1 : FS)
    (origPL2 : List (String × Ident)) (st1 st2 st1' st2' : St)
    (hsim : Sim o pf fs1 origPL2 st1 st2)
    (h1p : st1'.piconLinks = st1.piconLinks)
    (h1o : st1'.overrides = st1.overrides)
    (h1f : st1'.fold_var = st1.fold_var)
    (h2p : st2'.piconLinks = st2.piconLinks)
    (h2o : st2'.overrides = st2.overrides)
    (h2fs : st2'.fs = st2.fs)
    (h2f : st2'.fold_var = st2.fold_var)
    (h2m : st2'.linksMade = st2.linksMade)
    (h2r : st2'.removed = st2.removed)
    (h2or : st2'.origPiconLinks = st2.origPiconLinks) :
    Sim o pf fs1 origPL2 st1' st2' := by
  refine ⟨?_, ?_, ?_, ?_, ?_, ?_, ?_⟩
  · intro t
    rw [h2p, h1p]
    exact hsim.pl_eq t
  · intro t
    rw [h2o, h1o]
    exact hsim.ov_eq t
  · rw [h2fs]
    exact hsim.fs_eq
  · rw [h2f, h1f]
    exact hsim.fv_eq
  · rw [h2m]
    exact hsim.made0
  · rw [h2r]
    exact hsim.rem0
  · intro t
    rw [h2or, h2p]
    exact hsim.orig2 t

/-- Under the simulation, the two runs agree on whether a target is an
override hit. -/
theorem sim_overrideHit_iff (o : Options) (pf : PiconFiles) (fs00 : FS)
    (origPL0 : List (String × Ident)) (fs1 : FS) (origPL2 : List (String × Ident))
    (st1 st2 : St) (t : String)
    (hsim : Sim o pf fs1 origPL2 st1 st2)
    (hinv1 : Inv o pf fs00 origPL0 st1)
    (hfile1 : ∀ t i, lookupA fs00 t = some (.file i) ↔ lookupA fs1 t = some (.file i)) :
    overrideHit st2 t ↔ overrideHit st1 t := by
  have hst1file : ∀ i, lookupA st1.fs t = some (.file i) → overrideHit st1 t :=
    fun i h => overrideHit_of_file st1 t i h
  have hst2file : ∀ i, lookupA st2.fs t = some (.file i) → overrideHit st2 t :=
    fun i h => overrideHit_of_file st2 t i h
  have h12 : ∀ i, lookupA st1.fs t = some (.file i) → lookupA st2.fs t = some (.file i) := by
    intro i h
    rw [hsim.fs_eq]
    exact (hfile1 t i).mp ((hinv1.files_iff t i).mpr h)
  have h21 : ∀ i, lookupA st2.fs t = some (.file i) → lookupA st1.fs t = some (.file i) := by
    intro i h
    rw [hsim.fs_eq] at h
    exact (hinv1.files_iff t i).mp ((hfile1 t i).mpr h)
  constructor
  · rintro ⟨hex2, hmem2 | hfile2⟩
    · obtain ⟨i, hfi⟩ := hinv1.overrides_files t ((hsim.ov_eq t).mp hmem2)
      exact hst1file i hfi
    · obtain ⟨i, hfi⟩ := (refType_isFile_iff st2.fs t).mp hfile2
      exact hst1file i (h21 i hfi)
  · rintro ⟨hex1, hmem1 | hfile1'⟩
    · obtain ⟨i, hfi⟩ := hinv1.overrides_files t hmem1
      exact hst2file i (h12 i hfi)
    · obtain ⟨i, hfi⟩ := (refType_isFile_iff st1.fs t).mp hfile1'
      exact hst2file i (h12 i hfi)

/-- Under the simulation, the two runs also agree on whether the
override probe records a new override. -/
theorem sim_overrideAdd_iff (o : Options) (pf : PiconFiles) (fs00 : FS)
    (origPL0 : List (String × Ident)) (fs1 : FS) (origPL2 : List (String × Ident))
    (st1 st2 : St) (t : String)
    (hsim : Sim o pf fs1 origPL2 st1 st2)
    (hinv1 : Inv o pf fs00 origPL0 st1)
    (hfile1 : ∀ t i, lookupA fs00 t = some (.file i) ↔ lookupA fs1 t = some (.file i)) :
    overrideAdd st2 t ↔ overrideAdd st1 t := by
  have h12 : ∀ i, lookupA st1.fs t = some (.file i) → lookupA st2.fs t = some (.file i) := by
    intro i h
    rw [hsim.fs_eq]
    exact (hfile1 t i).mp ((hinv1.files_iff t i).mpr h)
  have h21 : ∀ i, lookupA st2.fs t = some (.file i) → lookupA st1.fs t = some (.file i) := by
    intro i h
    rw [hsim.fs_eq] at h
    exact (hinv1.files_iff t i).mp ((hfile1 t i).mpr h)
  constructor
  · rintro ⟨hex2, hnm2, hfile2⟩
    obtain ⟨i, hfi⟩ := (refType_isFile_iff st2.fs t).mp hfile2
    have hfi1 := h21 i hfi
    exact ⟨pathExists_of_file st1.fs t i hfi1,
      fun hm => hnm2 ((hsim.ov_eq t).mpr hm),
      (refType_isFile_iff st1.fs t).mpr ⟨i, hfi1⟩⟩
  · rintro ⟨hex1, hnm1, hfile1'⟩
    obtain ⟨i, hfi⟩ := (refType_isFile_iff st1.fs t).mp hfile1'
    have hfi2 := h12 i hfi
    exact ⟨pathExists_of_file st2.fs t i hfi2,
      fun hm => hnm1 ((hsim.ov_eq t).mp hm),
      (refType_isFile_iff st2.fs t).mpr ⟨i, hfi2⟩⟩

/-- The shape of an eligible (claiming) target step: the claims map
gains the target, and overrides and the fold variable are untouched. -/
theorem processTarget_claims_shape (o : Options) (pf : PiconFiles) (failAt : Nat → Bool)
    (servRef picon piconName : String) (piconRef : Ident) (st : St) (srp : List String)
    (hun : lookupA st.piconLinks (targetName srp) = none)
    (hov : ¬ overrideHit st (targetName srp))
    (hpf : lookupA pf picon = some (piconName, piconRef))
    (hfail : failAt st.attempts = false) :
    (processTarget o pf failAt servRef picon st srp).piconLinks =
      setA st.piconLinks (targetName srp) picon ∧
    (processTarget o pf failAt servRef picon st srp).overrides = st.overrides ∧
    (processTarget o pf failAt servRef picon st srp).fold_var = st.fold_var := by
  rcases horig : lookupA st.origPiconLinks (targetName srp) with _ | r
  · rw [processTarget_of_create o pf failAt servRef picon piconName piconRef st srp
      hun hov hpf (fun r h' => by rw [horig] at h'; exact Option.noConfusion h') hfail]
    exact ⟨rfl, rfl, rfl⟩
  · by_cases hr : r = piconRef
    · subst hr
      rw [processTarget_of_match o pf failAt servRef picon piconName r r st srp
        hun hov hpf horig rfl]
      exact ⟨rfl, rfl, rfl⟩
    · rw [processTarget_of_create o pf failAt servRef picon piconName piconRef st srp
        hun hov hpf
        (fun r' h' => by
          rw [horig] at h'
          have := Option.some.inj h'
          rw [← this]
          exact hr) hfail]
      exact ⟨rfl, rfl, rfl⟩

/-- One expanded target preserves the simulation.  stF is the final
state of the first run's makeLinks loop: every claim made now persists
to stF (hfut), every stF claim is linked in fs1 (hstF_claims) and is a
.png name (hpngF), and origPL2 is exactly the fs1 links (horig2A). -/
theorem sim_processTarget (o : Options) (pf : PiconFiles) (fs00 : FS)
    (origPL0 : List (String × Ident)) (fs1 : FS) (origPL2 : List (String × Ident))
    (stF : St) (servRef picon : String) (st1 st2 : St) (srp : List String)
    (hsim : Sim o pf fs1 origPL2 st1 st2)
    (hinv1 : Inv o pf fs00 origPL0 st1)
    (hfile1 : ∀ t i, lookupA fs00 t = some (.file i) ↔ lookupA fs1 t = some (.file i))
    (horig2A : ∀ t r, lookupA origPL2 t = some r ↔
      (isPng t = true ∧ lookupA fs1 t = some (mkLinkEntry o.useHardLinks r)))
    (hstF_claims : ∀ t p, lookupA stF.piconLinks t = some p →
      ∃ nm ref, lookupA pf p = some (nm, ref) ∧
        lookupA fs1 t = some (mkLinkEntry o.useHardLinks ref))
    (hpngF : ∀ t p, lookupA stF.piconLinks t = some p → isPng t = true)
    (hfut : ∀ t p,
      lookupA (processTarget o pf allOk servRef picon st1 srp).piconLinks t = some p →
      lookupA stF.piconLinks t = some p) :
    Sim o pf fs1 origPL2 (processTarget o pf allOk servRef picon st1 srp)
      (processTarget o pf allOk servRef picon st2 srp) := by
  rcases hpl1 : lookupA st1.piconLinks (targetName srp) with _ | p
  case some =>
    have hpl2 : lookupA st2.piconLinks (targetName srp) = some p := by
      rw [hsim.pl_eq]
      exact hpl1
    rw [processTarget_of_claimed o pf allOk servRef picon p st1 srp hpl1,
        processTarget_of_claimed o pf allOk servRef picon p st2 srp hpl2]
    by_cases hp : p = picon
    · rw [if_pos hp, if_pos hp]
      exact hsim
    · rw [if_neg hp, if_neg hp]
      exact sim_transfer o pf fs1 origPL2 st1 st2 _ _ hsim
        rfl rfl rfl rfl rfl rfl rfl rfl rfl rfl
  case none =>
    have hpl2 : lookupA st2.piconLinks (targetName srp) = none := by
      rw [hsim.pl_eq]
      exact hpl1
    by_cases hov1 : overrideHit st1 (targetName srp)
    · have hov2 : overrideHit st2 (targetName srp) :=
        (sim_overrideHit_iff o pf fs00 origPL0 fs1 origPL2 st1 st2 _
          hsim hinv1 hfile1).mpr hov1
      rw [processTarget_of_override o pf allOk servRef picon st1 srp hpl1 hov1,
          processTarget_of_override o pf allOk servRef picon st2 srp hpl2 hov2]
      refine ⟨fun u => hsim.pl_eq u, ?_, hsim.fs_eq, hsim.fv_eq,
        hsim.made0, hsim.rem0, fun u => hsim.orig2 u⟩
      intro u
      show (u ∈ if overrideAdd st2 (targetName srp)
          then targetName srp :: st2.overrides else st2.overrides) ↔
        (u ∈ if overrideAdd st1 (targetName srp)
          then targetName srp :: st1.overrides else st1.overrides)
      by_cases hadd : overrideAdd st1 (targetName srp)
      · have hadd2 : overrideAdd st2 (targetName srp) :=
          (sim_overrideAdd_iff o pf fs00 origPL0 fs1 origPL2 st1 st2 _
            hsim hinv1 hfile1).mpr hadd
        rw [if_pos hadd2, if_pos hadd]
        simp only [List.mem_cons]
        exact or_congr Iff.rfl (hsim.ov_eq u)
      · have hadd2 : ¬ overrideAdd st2 (targetName srp) := fun h =>
          hadd ((sim_overrideAdd_iff o pf fs00 origPL0 fs1 origPL2 st1 st2 _
            hsim hinv1 hfile1).mp h)
        rw [if_neg hadd2, if_neg hadd]
        exact hsim.ov_eq u
    · have hov2 : ¬ overrideHit st2 (targetName srp) := fun h =>
        hov1 ((sim_overrideHit_iff o pf fs00 origPL0 fs1 origPL2 st1 st2 _
          hsim hinv1 hfile1).mp h)
      rcases hpf : lookupA pf picon with _ | ⟨piconName, piconRef⟩
      · rw [processTarget_of_no_icon o pf allOk servRef picon st1 srp hpl1 hov1 hpf,
            processTarget_of_no_icon o pf allOk servRef picon st2 srp hpl2 hov2 hpf]
        exact sim_transfer o pf fs1 origPL2 st1 st2 _ _ hsim
          (noPiconReport_piconLinks _ _ _) (noPiconReport_overrides _ _ _)
          (noPiconReport_fold_var _ _ _) (noPiconReport_piconLinks _ _ _)
          (noPiconReport_overrides _ _ _) (noPiconReport_fs _ _ _)
          (noPiconReport_fold_var _ _ _) (noPiconReport_linksMade _ _ _)
          (noPiconReport_removed _ _ _) (noPiconReport_origPiconLinks _ _ _)
      · have hclaims1 : lookupA
            (processTarget o pf allOk servRef picon st1 srp).piconLinks
            (targetName srp) = some picon :=
          processTarget_claims o pf allOk servRef picon piconName piconRef st1 srp
            hpl1 hov1 hpf rfl
        have hstFt : lookupA stF.piconLinks (targetName srp) = some picon :=
          hfut _ picon hclaims1
        obtain ⟨nm', ref', hpf', hfs1t⟩ := hstF_claims _ picon hstFt
        rw [hpf] at hpf'
        have hrefs : ref' = piconRef := by
          have := Option.some.inj hpf'
          exact (congrArg Prod.snd this).symm
        rw [hrefs] at hfs1t
        have hpng_t : isPng (targetName srp) = true := hpngF _ picon hstFt
        have horig2t : lookupA origPL2 (targetName srp) = some piconRef :=
          (horig2A _ piconRef).mpr ⟨hpng_t, hfs1t⟩
        have horig_st2 : lookupA st2.origPiconLinks (targetName srp) = some piconRef := by
          rw [hsim.orig2, hpl2]
          exact horig2t
        obtain ⟨hsh_pl, hsh_ov, hsh_fv⟩ :=
          processTarget_claims_shape o pf allOk servRef picon piconName piconRef st1 srp
            hpl1 hov1 hpf rfl
        rw [processTarget_of_match o pf allOk servRef picon piconName piconRef piconRef
          st2 srp hpl2 hov2 hpf horig_st2 rfl]
        refine ⟨?_, ?_, hsim.fs_eq, ?_, hsim.made0, hsim.rem0, ?_⟩
        · intro u
          rw [hsh_pl]
          show lookupA (setA st2.piconLinks (targetName srp) picon) u =
            lookupA (setA st1.piconLinks (targetName srp) picon) u
          by_cases hu : targetName srp = u
          · rw [← hu, lookupA_setA_self, lookupA_setA_self]
          · rw [lookupA_setA_ne _ _ _ _ hu, lookupA_setA_ne _ _ _ _ hu]
            exact hsim.pl_eq u
        · intro u
          rw [hsh_ov]
          exact hsim.ov_eq u
        · rw [hsh_fv]
          exact hsim.fv_eq
        · intro u
          show lookupA (eraseA st2.origPiconLinks (targetName srp)) u =
            if (lookupA (setA st2.piconLinks (targetName srp) picon) u).isSome = true
            then none else lookupA origPL2 u
          by_cases hu : targetName srp = u
          · rw [← hu, lookupA_eraseA_self, lookupA_setA_self]
            rfl
          · rw [lookupA_eraseA_ne _ _ _ hu, lookupA_setA_ne _ _ _ _ hu]
            exact hsim.orig2 u

/-- The ambient facts the simulation argument needs about the first
run's final directory fs1, its final makeLinks state stF, and the
second run's scanned baseline origPL2. -/
def SimCtx (o : Options) (pf : PiconFiles) (fs00 : FS) (fs1 : FS)
    (origPL2 : List (String × Ident)) (stF : St) : Prop :=
  (∀ t i, lookupA fs00 t = some (.file i) ↔ lookupA fs1 t = some (.file i)) ∧
  (∀ t r, lookupA origPL2 t = some r ↔
    (isPng t = true ∧ lookupA fs1 t = some (mkLinkEntry o.useHardLinks r))) ∧
  (∀ t p, lookupA stF.piconLinks t = some p →
    ∃ nm ref, lookupA pf p = some (nm, ref) ∧
      lookupA fs1 t = some (mkLinkEntry o.useHardLinks ref)) ∧
  (∀ t p, lookupA stF.piconLinks t = some p → isPng t = true)

theorem sim_processTargets (o : Options) (pf : PiconFiles) (fs00 : FS)
    (origPL0 : List (String × Ident)) (fs1 : FS) (origPL2 : List (String × Ident))
    (stF : St) (servRef picon : String)
    (hctx : SimCtx o pf fs00 fs1 origPL2 stF) :
    ∀ (refs : List (List String)) (st1 st2 : St),
    Sim o pf fs1 origPL2 st1 st2 →
    Inv o pf fs00 origPL0 st1 →
    (∀ t p, lookupA
        ((refs.foldl (processTarget o pf allOk servRef picon) st1)).piconLinks t =
        some p → lookupA stF.piconLinks t = some p) →
    Sim o pf fs1 origPL2
      (refs.foldl (processTarget o pf allOk servRef picon) st1)
      (refs.foldl (processTarget o pf allOk servRef picon) st2) := by
  obtain ⟨hfile1, horig2A, hstF, hpngF⟩ := hctx
  intro refs
  induction refs with
  | nil => intro st1 st2 hsim _ _; exact hsim
  | cons srp rest ih =>
    intro st1 st2 hsim hinv1 hfut
    rw [List.foldl_cons, List.foldl_cons]
    refine ih _ _ ?_ ?_ ?_
    · refine sim_processTarget o pf fs00 origPL0 fs1 origPL2 stF servRef picon st1 st2 srp
        hsim hinv1 hfile1 horig2A hstF hpngF ?_
      intro t p h
      apply hfut t p
      rw [List.foldl_cons]
      exact processTargets_pl_mono o pf allOk servRef picon rest _ t p h
    · exact inv_processTarget o pf fs00 origPL0 allOk servRef picon st1 srp hinv1
    · intro t p h
      apply hfut t p
      rw [List.foldl_cons]
      exact h

theorem sim_processRecord (o : Options) (pf : PiconFiles) (fs00 : FS)
    (origPL0 : List (String × Ident)) (fs1 : FS) (origPL2 : List (String × Ident))
    (stF : St) (st1 st2 : St) (servRef serviceName picon : String)
    (hctx : SimCtx o pf fs00 fs1 origPL2 stF)
    (hsim : Sim o pf fs1 origPL2 st1 st2)
    (hinv1 : Inv o pf fs00 origPL0 st1)
    (hfut : ∀ t p, lookupA
        (processRecord o pf allOk st1 servRef serviceName picon).1.piconLinks t =
        some p → lookupA stF.piconLinks t = some p) :
    Sim o pf fs1 origPL2
      (processRecord o pf allOk st1 servRef serviceName picon).1
      (processRecord o pf allOk st2 servRef serviceName picon).1 ∧
    (processRecord o pf allOk st2 servRef serviceName picon).2 =
      (processRecord o pf allOk st1 servRef serviceName picon).2 := by
  have hfv : st2.fold_var = st1.fold_var := hsim.fv_eq
  rcases hexp : expandServRefs o st1.fold_var
      ((pySplitColon servRef).take 10) serviceName with e | out
  · have hexp2 : expandServRefs o st2.fold_var
        ((pySplitColon servRef).take 10) serviceName = .error e := by
      rw [hfv]
      exact hexp
    constructor
    · simp only [processRecord, hexp, hexp2]
      exact hsim
    · simp only [processRecord, hexp, hexp2]
  · have hexp2 : expandServRefs o st2.fold_var
        ((pySplitColon servRef).take 10) serviceName = .ok out := by
      rw [hfv]
      exact hexp
    have hsim' : Sim o pf fs1 origPL2
        { st1 with fold_var := out.fold_var } { st2 with fold_var := out.fold_var } :=
      ⟨fun u => hsim.pl_eq u, fun u => hsim.ov_eq u, hsim.fs_eq, rfl,
        hsim.made0, hsim.rem0, fun u => hsim.orig2 u⟩
    have hinv1' : Inv o pf fs00 origPL0 { st1 with fold_var := out.fold_var } :=
      inv_fold_var o pf fs00 origPL0 st1 out.fold_var hinv1
    constructor
    · simp only [processRecord, hexp, hexp2]
      refine sim_processTargets o pf fs00 origPL0 fs1 origPL2 stF servRef picon hctx
        out.refs _ _ hsim' hinv1' ?_
      intro t p h
      apply hfut t p
      simp only [processRecord, hexp]
      exact h
    · simp only [processRecord, hexp, hexp2]

theorem processLine_empty_eq (o : Options) (pf : PiconFiles) (failAt : Nat → Bool)
    (st : St) (line : String) (hc : rstrip (stripComment line) = "") :
    processLine o pf failAt st line = (st, none) := by
  unfold processLine
  rw [if_pos hc]

theorem processLine_record_eq (o : Options) (pf : PiconFiles) (failAt : Nat → Bool)
    (st : St) (line w1 w2 w3 : String)
    (hc : rstrip (stripComment line) ≠ "")
    (hw : pyWords (rstrip (stripComment line)) = [w1, w2, w3]) :
    processLine o pf failAt st line = processRecord o pf failAt st w1 w2 w3 := by
  unfold processLine
  rw [if_neg hc, hw]

theorem processLine_zero_eq (o : Options) (pf : PiconFiles) (failAt : Nat → Bool)
    (st : St) (line : String)
    (hc : rstrip (stripComment line) ≠ "")
    (hw : pyWords (rstrip (stripComment line)) = []) :
    processLine o pf failAt st line =
      ({ st with log := Msg.tooFew line :: st.log }, none) := by
  unfold processLine
  rw [if_neg hc, hw]
  rfl

theorem processLine_one_eq (o : Options) (pf : PiconFiles) (failAt : Nat → Bool)
    (st : St) (line w1 : String)
    (hc : rstrip (stripComment line) ≠ "")
    (hw : pyWords (rstrip (stripComment line)) = [w1]) :
    processLine o pf failAt st line =
      ({ st with log := Msg.tooFew line :: st.log }, none) := by
  unfold processLine
  rw [if_neg hc, hw]
  rfl

theorem processLine_two_eq (o : Options) (pf : PiconFiles) (failAt : Nat → Bool)
    (st : St) (line w1 w2 : String)
    (hc : rstrip (stripComment line) ≠ "")
    (hw : pyWords (rstrip (stripComment line)) = [w1, w2]) :
    processLine o pf failAt st line =
      ({ st with log := Msg.tooFew line :: st.log }, none) := by
  unfold processLine
  rw [if_neg hc, hw]
  rfl

theorem processLine_many_eq (o : Options) (pf : PiconFiles) (failAt : Nat → Bool)
    (st : St) (line w1 w2 w3 w4 : String) (ws4 : List String)
    (hc : rstrip (stripComment line) ≠ "")
    (hw : pyWords (rstrip (stripComment line)) = w1 :: w2 :: w3 :: w4 :: ws4) :
    processLine o pf failAt st line =
      ({ st with log := Msg.tooMany line :: st.log }, none) := by
  have hlen : (w1 :: w2 :: w3 :: w4 :: ws4).length > 3 := by
    simp only [List.length_cons]
    omega
  unfold processLine
  rw [if_neg hc, hw]
  show (if (w1 :: w2 :: w3 :: w4 :: ws4).length > 3 then
      ({ st with log := Msg.tooMany line :: st.log }, (none : Option PyErr))
    else ({ st with log := Msg.tooFew line :: st.log }, none)) = _
  rw [if_pos hlen]

theorem sim_processLine (o : Options) (pf : PiconFiles) (fs00 : FS)
    (origPL0 : List (String × Ident)) (fs1 : FS) (origPL2 : List (String × Ident))
    (stF : St) (st1 st2 : St) (line : String)
    (hctx : SimCtx o pf fs00 fs1 origPL2 stF)
    (hsim : Sim o pf fs1 origPL2 st1 st2)
    (hinv1 : Inv o pf fs00 origPL0 st1)
    (hfut : ∀ t p, lookupA (processLine o pf allOk st1 line).1.piconLinks t = some p →
      lookupA stF.piconLinks t = some p) :
    Sim o pf fs1 origPL2
      (processLine o pf allOk st1 line).1 (processLine o pf allOk st2 line).1 ∧
    (processLine o pf allOk st2 line).2 = (processLine o pf allOk st1 line).2 := by
  by_cases hc : rstrip (stripComment line) = ""
  · rw [processLine_empty_eq o pf allOk st1 line hc,
        processLine_empty_eq o pf allOk st2 line hc]
    exact ⟨hsim, rfl⟩
  · rcases hw : pyWords (rstrip (stripComment line)) with _ | ⟨w1, ws⟩
    · rw [processLine_zero_eq o pf allOk st1 line hc hw,
          processLine_zero_eq o pf allOk st2 line hc hw]
      exact ⟨⟨fun u => hsim.pl_eq u, fun u => hsim.ov_eq u, hsim.fs_eq, hsim.fv_eq,
        hsim.made0, hsim.rem0, fun u => hsim.orig2 u⟩, rfl⟩
    · rcases ws with _ | ⟨w2, ws2⟩
      · rw [processLine_one_eq o pf allOk st1 line w1 hc hw,
            processLine_one_eq o pf allOk st2 line w1 hc hw]
        exact ⟨⟨fun u => hsim.pl_eq u, fun u => hsim.ov_eq u, hsim.fs_eq, hsim.fv_eq,
          hsim.made0, hsim.rem0, fun u => hsim.orig2 u⟩, rfl⟩
      · rcases ws2 with _ | ⟨w3, ws3⟩
        · rw [processLine_two_eq o pf allOk st1 line w1 w2 hc hw,
              processLine_two_eq o pf allOk st2 line w1 w2 hc hw]
          exact ⟨⟨fun u => hsim.pl_eq u, fun u => hsim.ov_eq u, hsim.fs_eq, hsim.fv_eq,
            hsim.made0, hsim.rem0, fun u => hsim.orig2 u⟩, rfl⟩
        · rcases ws3 with _ | ⟨w4, ws4⟩
          · rw [processLine_record_eq o pf allOk st1 line w1 w2 w3 hc hw,
                processLine_record_eq o pf allOk st2 line w1 w2 w3 hc hw]
            refine sim_processRecord o pf fs00 origPL0 fs1 origPL2 stF st1 st2
              w1 w2 w3 hctx hsim hinv1 ?_
            intro t p h
            apply hfut t p
            rw [processLine_record_eq o pf allOk st1 line w1 w2 w3 hc hw]
            exact h
          · rw [processLine_many_eq o pf allOk st1 line w1 w2 w3 w4 ws4 hc hw,
                processLine_many_eq o pf allOk st2 line w1 w2 w3 w4 ws4 hc hw]
            exact ⟨⟨fun u => hsim.pl_eq u, fun u => hsim.ov_eq u, hsim.fs_eq, hsim.fv_eq,
              hsim.made0, hsim.rem0, fun u => hsim.orig2 u⟩, rfl⟩

theorem sim_runLines (o : Options) (pf : PiconFiles) (fs00 : FS)
    (origPL0 : List (String × Ident)) (fs1 : FS) (origPL2 : List (String × Ident))
    (stF : St) (hctx : SimCtx o pf fs00 fs1 origPL2 stF) :
    ∀ (lines : List String) (st1 st2 : St),
    Sim o pf fs1 origPL2 st1 st2 →
    Inv o pf fs00 origPL0 st1 →
    (∀ t p, lookupA (runLines o pf allOk st1 lines).1.piconLinks t = some p →
      lookupA stF.piconLinks t = some p) →
    Sim o pf fs1 origPL2
      (runLines o pf allOk st1 lines).1 (runLines o pf allOk st2 lines).1 ∧
    (runLines o pf allOk st2 lines).2 = (runLines o pf allOk st1 lines).2 := by
  intro lines
  induction lines with
  | nil => intro st1 st2 hsim _ _; exact ⟨hsim, rfl⟩
  | cons l ls ih =>
    intro st1 st2 hsim hinv1 hfut
    rcases hp1 : processLine o pf allOk st1 l with ⟨st1', e1⟩
    rcases hp2 : processLine o pf allOk st2 l with ⟨st2', e2⟩
    have hfutl : ∀ t p, lookupA (processLine o pf allOk st1 l).1.piconLinks t = some p →
        lookupA stF.piconLinks t = some p := by
      intro t p h
      apply hfut t p
      show lookupA (runLines o pf allOk st1 (l :: ls)).1.piconLinks t = some p
      unfold runLines
      rw [hp1] at h ⊢
      rcases e1 with _ | e
      · exact runLines_pl_mono o pf allOk ls st1' t p h
      · exact h
    obtain ⟨hsimL, herrL⟩ := sim_processLine o pf fs00 origPL0 fs1 origPL2 stF
      st1 st2 l hctx hsim hinv1 hfutl
    rw [hp1, hp2] at hsimL herrL
    have hinvL : Inv o pf fs00 origPL0 st1' := by
      have := inv_processLine o pf fs00 origPL0 allOk st1 l hinv1
      rw [hp1] at this
      exact this
    have he : e2 = e1 := herrL
    unfold runLines
    rw [hp1, hp2, he]
    rcases e1 with _ | e
    · have hfutL : ∀ t p, lookupA (runLines o pf allOk st1' ls).1.piconLinks t = some p →
          lookupA stF.piconLinks t = some p := by
        intro t p h
        apply hfut t p
        show lookupA (runLines o pf allOk st1 (l :: ls)).1.piconLinks t = some p
        unfold runLines
        rw [hp1]
        exact h
      exact ih st1' st2' hsimL hinvL hfutL
    · exact ⟨hsimL, rfl⟩

/-- C3: idempotence of reconciliation, under the conditions that make it
true: the cleanAll option is unset, every link creation succeeds (the
allOk oracle), the first run completes without an uncaught exception,
and every target name it claims passes the .png scan filter.  Then a
second run over the first run's output directory with the same database
and inventory completes, leaves the directory exactly as it found it,
and reports zero links created and zero links removed: every target is
discharged by the identity-equality short-circuit against the baseline
scanned from the first run's links. -/
theorem c3_idempotent (o : Options) (pf : PiconFiles) (fs0 : FS) (lines : List String)
    (hca : o.cleanAll = false)
    (hnd : (keysA fs0).Nodup)
    (herr1 : (fullRun o pf allOk fs0 lines).err = none)
    (hpng : ∀ t p, lookupA (fullRun o pf allOk fs0 lines).st.piconLinks t = some p →
      isPng t = true) :
    (fullRun o pf allOk (fullRun o pf allOk fs0 lines).st.fs lines).err = none ∧
    (fullRun o pf allOk (fullRun o pf allOk fs0 lines).st.fs lines).st.fs =
      (fullRun o pf allOk fs0 lines).st.fs ∧
    (fullRun o pf allOk (fullRun o pf allOk fs0 lines).st.fs lines).st.linksMade = 0 ∧
    (fullRun o pf allOk (fullRun o pf allOk fs0 lines).st.fs lines).st.removed = 0 := by
  rcases hscan : scanLinks o.useHardLinks fs0 with e0 | ⟨origPL, wrong⟩
  · exfalso
    have : (fullRun o pf allOk fs0 lines).err = some .scanFail := by
      simp only [fullRun, hscan]
    rw [this] at herr1
    exact Option.noConfusion herr1
  rcases hrun : runLines o pf allOk (initSt o fs0 origPL wrong) lines with ⟨stF, e1⟩
  rcases e1 with _ | e
  case mk.some =>
    exfalso
    have : (fullRun o pf allOk fs0 lines).err = some (.expandErr e) := by
      simp only [fullRun, hscan, hrun]
    rw [this] at herr1
    exact Option.noConfusion herr1
  case mk.none =>
  have hfr1 : fullRun o pf allOk fs0 lines =
      ⟨{ stF with
          fs := removeAll stF.fs (keysA stF.origPiconLinks),
          removed := stF.removed + stF.origPiconLinks.length,
          origPiconLinks := [] }, none⟩ := by
    simp only [fullRun, hscan, hrun]
  -- run-1 invariant at the end of makeLinks
  have hinv0 : Inv o pf (initSt o fs0 origPL wrong).fs
      (initSt o fs0 origPL wrong).origPiconLinks (initSt o fs0 origPL wrong) :=
    inv_init o pf fs0 origPL wrong hnd hscan
  have hinvF : Inv o pf (initSt o fs0 origPL wrong).fs
      (initSt o fs0 origPL wrong).origPiconLinks stF := by
    have := inv_runLines o pf _ _ allOk lines (initSt o fs0 origPL wrong) hinv0
    rw [hrun] at this
    exact this
  -- the claimed names are .png names
  have hpngF : ∀ t p, lookupA stF.piconLinks t = some p → isPng t = true := by
    intro t p h
    apply hpng t p
    rw [hfr1]
    exact h
  -- lookups in the cleaned directory fs1 factor through stF.fs
  have hsub : ∀ n e', lookupA (removeAll stF.fs (keysA stF.origPiconLinks)) n = some e' →
      lookupA stF.fs n = some e' := by
    intro n e' hl
    rw [lookupA_removeAll] at hl
    by_cases hm : n ∈ keysA stF.origPiconLinks
    · rw [if_pos hm] at hl
      exact Option.noConfusion hl
    · rw [if_neg hm] at hl
      exact hl
  -- the stF claims are still linked in fs1
  have hstF_claims : ∀ t p, lookupA stF.piconLinks t = some p →
      ∃ nm ref, lookupA pf p = some (nm, ref) ∧
        lookupA (removeAll stF.fs (keysA stF.origPiconLinks)) t =
          some (mkLinkEntry o.useHardLinks ref) := by
    intro t p h
    obtain ⟨nm, ref, hpf, hfs, horig⟩ := hinvF.claims_linked t p h
    refine ⟨nm, ref, hpf, ?_⟩
    have hnm : t ∉ keysA stF.origPiconLinks := by
      intro hm
      obtain ⟨v, hv⟩ := lookupA_isSome_of_mem_keys _ t hm
      rw [horig] at hv
      exact Option.noConfusion hv
    rw [lookupA_removeAll, if_neg hnm]
    exact hfs
  -- plain files are the same before the first run and in fs1
  have hfile1 : ∀ t i, lookupA (initSt o fs0 origPL wrong).fs t = some (.file i) ↔
      lookupA (removeAll stF.fs (keysA stF.origPiconLinks)) t = some (.file i) := by
    intro t i
    rw [lookupA_removeAll]
    by_cases hm : t ∈ keysA stF.origPiconLinks
    · rw [if_pos hm]
      constructor
      · intro h
        obtain ⟨r, hr⟩ := lookupA_isSome_of_mem_keys _ t hm
        have hlink := hinvF.orig_linked t r hr
        have hfile := (hinvF.files_iff t i).mp h
        rw [hfile] at hlink
        exact ((mkLinkEntry_ne_file o.useHardLinks r i)
          (Option.some.inj hlink).symm).elim
      · intro h
        exact Option.noConfusion h
    · rw [if_neg hm]
      exact hinvF.files_iff t i
  have hnd1 : (keysA (removeAll stF.fs (keysA stF.origPiconLinks))).Nodup :=
    nodup_removeAll _ _ hinvF.nodup_fs
  -- the second scan succeeds: fs1 holds no dangling .png link
  have hnodangle : ∀ n e', (n, e') ∈ removeAll stF.fs (keysA stF.origPiconLinks) →
      isPng n = true → (entryRefType e' = .isSLink ∨ entryRefType e' = .isHLink) →
      entryLinkRef e' ≠ none := by
    intro n e' hm hp hk
    have hl := hsub n e' (lookupA_eq_of_mem_nodup _ n e' hnd1 hm)
    rcases hinvF.png_ok n e' hp hl with ⟨i, hi⟩ | hother | ⟨r, hr⟩
    · rw [hi] at hk
      rcases hk with hk | hk <;> exact FType.noConfusion hk
    · rw [hother] at hk
      rcases hk with hk | hk <;> exact FType.noConfusion hk
    · rw [hr]
      cases o.useHardLinks <;> simp [mkLinkEntry, entryLinkRef]
  obtain ⟨origPL2, wrong2, hscan2⟩ :=
    scanLinks_exists_ok o.useHardLinks (removeAll stF.fs (keysA stF.origPiconLinks))
      hnodangle
  obtain ⟨hA2, hB2⟩ := scanLinks_spec o.useHardLinks
    (removeAll stF.fs (keysA stF.origPiconLinks)) hnd1 origPL2 wrong2 hscan2
  -- no wrong-kind link survives the first run, so the second scan removes nothing
  have hw2 : wrong2 = [] := by
    rcases hwc : wrong2 with _ | ⟨n, rest⟩
    · rfl
    · exfalso
      have hmem := (hB2 n).mp (by rw [hwc]; exact List.mem_cons_self n rest)
      obtain ⟨hp, e', hl, hk, hne⟩ := hmem
      rcases hinvF.png_ok n e' hp (hsub n e' hl) with ⟨i, hi⟩ | hother | ⟨r, hr⟩
      · rw [hi] at hk
        rcases hk with hk | hk <;> exact FType.noConfusion hk
      · rw [hother] at hk
        rcases hk with hk | hk <;> exact FType.noConfusion hk
      · exact hne r hr
  subst hw2
  -- the simulation between the two makeLinks passes
  have hctx : SimCtx o pf (initSt o fs0 origPL wrong).fs
      (removeAll stF.fs (keysA stF.origPiconLinks)) origPL2 stF :=
    ⟨hfile1, hA2, hstF_claims, hpngF⟩
  have hsim0 : Sim o pf (removeAll stF.fs (keysA stF.origPiconLinks)) origPL2
      (initSt o fs0 origPL wrong)
      (initSt o (removeAll stF.fs (keysA stF.origPiconLinks)) origPL2 []) := by
    rw [initSt_eq_noclean o fs0 origPL wrong hca,
        initSt_eq_noclean o (removeAll stF.fs (keysA stF.origPiconLinks)) origPL2 [] hca]
    exact ⟨fun t => rfl, fun t => Iff.rfl, rfl, rfl, rfl, rfl, fun t => rfl⟩
  have hfut0 : ∀ t p,
      lookupA (runLines o pf allOk (initSt o fs0 origPL wrong) lines).1.piconLinks t =
        some p → lookupA stF.piconLinks t = some p := by
    intro t p h
    rw [hrun] at h
    exact h
  obtain ⟨hsimF, herr2⟩ := sim_runLines o pf (initSt o fs0 origPL wrong).fs
    (initSt o fs0 origPL wrong).origPiconLinks
    (removeAll stF.fs (keysA stF.origPiconLinks)) origPL2 stF hctx lines
    (initSt o fs0 origPL wrong)
    (initSt o (removeAll stF.fs (keysA stF.origPiconLinks)) origPL2 [])
    hsim0 hinv0 hfut0
  rw [hrun] at hsimF herr2
  rcases hrun2 : runLines o pf allOk
      (initSt o (removeAll stF.fs (keysA stF.origPiconLinks)) origPL2 []) lines
    with ⟨st2F, e2⟩
  rw [hrun2] at hsimF herr2
  have he2 : e2 = none := herr2
  subst he2
  -- the second pass consumed its whole baseline
  have h2orig : ∀ t, lookupA st2F.origPiconLinks t = none := by
    intro t
    by_cases hs : (lookupA st2F.piconLinks t).isSome = true
    · rw [hsimF.orig2 t, if_pos hs]
    · rw [hsimF.orig2 t, if_neg hs]
      rcases ho : lookupA origPL2 t with _ | r
      · rfl
      · exfalso
        obtain ⟨hp, hl⟩ := (hA2 t r).mp ho
        rcases hinvF.links_claimed t r hp (hsub t _ hl) with hor | hcl
        · have hmem : t ∈ keysA stF.origPiconLinks := lookupA_some_mem _ t r hor
          rw [lookupA_removeAll, if_pos hmem] at hl
          exact Option.noConfusion hl
        · rw [← hsimF.pl_eq t] at hcl
          exact hs hcl
  have h2orignil : st2F.origPiconLinks = [] := eq_nil_of_lookupA_none _ h2orig
  have hfr2 : fullRun o pf allOk (removeAll stF.fs (keysA stF.origPiconLinks)) lines =
      ⟨{ st2F with
          fs := removeAll st2F.fs (keysA st2F.origPiconLinks),
          removed := st2F.removed + st2F.origPiconLinks.length,
          origPiconLinks := [] }, none⟩ := by
    simp only [fullRun, hscan2, hrun2]
  rw [hfr1]
  refine ⟨?_, ?_, ?_, ?_⟩
  · show (fullRun o pf allOk (removeAll stF.fs (keysA stF.origPiconLinks)) lines).err =
      none
    rw [hfr2]
  · show (fullRun o pf allOk (removeAll stF.fs (keysA stF.origPiconLinks)) lines).st.fs =
      removeAll stF.fs (keysA stF.origPiconLinks)
    rw [hfr2]
    show removeAll st2F.fs (keysA st2F.origPiconLinks) =
      removeAll stF.fs (keysA stF.origPiconLinks)
    rw [h2orignil]
    show st2F.fs = removeAll stF.fs (keysA stF.origPiconLinks)
    exact hsimF.fs_eq
  · show (fullRun o pf allOk
        (removeAll stF.fs (keysA stF.origPiconLinks)) lines).st.linksMade = 0
    rw [hfr2]
    show st2F.linksMade = 0
    exact hsimF.made0
  · show (fullRun o pf allOk
        (removeAll stF.fs (keysA stF.origPiconLinks)) lines).st.removed = 0
    rw [hfr2]
    show st2F.removed + st2F.origPiconLinks.length = 0
    rw [h2orignil]
    show st2F.removed = 0
    exact hsimF.rem0

/-- C3 witness: a concrete full-mode run creating one link; the second
run over its output completes, changes nothing, and reports zero links
made and removed. -/
theorem c3_idempotent_witness :
    (fullRun ⟨true, false, false, false, false, false, false⟩
        [("a", ("a.png", (1, 10)))] allOk
        (fullRun ⟨true, false, false, false, false, false, false⟩
          [("a", ("a.png", (1, 10)))] allOk [] ["1:0:1:1:1:1:0:0:0:0 X a"]).st.fs
        ["1:0:1:1:1:1:0:0:0:0 X a"]).err = none ∧
    (fullRun ⟨true, false, false, false, false, false, false⟩
        [("a", ("a.png", (1, 10)))] allOk
        (fullRun ⟨true, false, false, false, false, false, false⟩
          [("a", ("a.png", (1, 10)))] allOk [] ["1:0:1:1:1:1:0:0:0:0 X a"]).st.fs
        ["1:0:1:1:1:1:0:0:0:0 X a"]).st.fs =
      (fullRun ⟨true, false, false, false, false, false, false⟩
        [("a", ("a.png", (1, 10)))] allOk [] ["1:0:1:1:1:1:0:0:0:0 X a"]).st.fs ∧
    (fullRun ⟨true, false, false, false, false, false, false⟩
        [("a", ("a.png", (1, 10)))] allOk
        (fullRun ⟨true, false, false, false, false, false, false⟩
          [("a", ("a.png", (1, 10)))] allOk [] ["1:0:1:1:1:1:0:0:0:0 X a"]).st.fs
        ["1:0:1:1:1:1:0:0:0:0 X a"]).st.linksMade = 0 ∧
    (fullRun ⟨true, false, false, false, false, false, false⟩
        [("a", ("a.png", (1, 10)))] allOk
        (fullRun ⟨true, false, false, false, false, false, false⟩
          [("a", ("a.png", (1, 10)))] allOk [] ["1:0:1:1:1:1:0:0:0:0 X a"]).st.fs
        ["1:0:1:1:1:1:0:0:0:0 X a"]).st.removed = 0 :=
  c3_idempotent ⟨true, false, false, false, false, false, false⟩
    [("a", ("a.png", (1, 10)))] [] ["1:0:1:1:1:1:0:0:0:0 X a"]
    rfl (by decide) rfl
    (by
      intro t p h
      have h' : lookupA [("1_0_1_1_1_1_0_0_0_0.png", "a")] t = some p := h
      by_cases ht : ("1_0_1_1_1_1_0_0_0_0.png" : String) = t
      · rw [← ht]
        decide
      · rw [lookupA, if_neg ht] at h'
        exact Option.noConfusion h')

/-! ## Claim C3 counterexample: cleanAll runs are not idempotent -/

/-- C3 (counterexample): with the cleanAll option set — part of the same
configuration both runs use — the second run against the unchanged output
of the first removes the baseline link up front and recreates it, so it
reports one link removed and one link created, not zero. -/
theorem c3_counterexample :
    (fullRun ⟨true, false, false, false, false, false, true⟩
        [("a", ("a.png", (1, 10)))] allOk
        (fullRun ⟨true, false, false, false, false, false, true⟩
          [("a", ("a.png", (1, 10)))] allOk [] ["1:0:1:1:1:1:0:0:0:0 X a"]).st.fs
        ["1:0:1:1:1:1:0:0:0:0 X a"]).err = none ∧
    (fullRun ⟨true, false, false, false, false, false, true⟩
        [("a", ("a.png", (1, 10)))] allOk
        (fullRun ⟨true, false, false, false, false, false, true⟩
          [("a", ("a.png", (1, 10)))] allOk [] ["1:0:1:1:1:1:0:0:0:0 X a"]).st.fs
        ["1:0:1:1:1:1:0:0:0:0 X a"]).st.linksMade = 1 ∧
    (fullRun ⟨true, false, false, false, false, false, true⟩
        [("a", ("a.png", (1, 10)))] allOk
        (fullRun ⟨true, false, false, false, false, false, true⟩
          [("a", ("a.png", (1, 10)))] allOk [] ["1:0:1:1:1:1:0:0:0:0 X a"]).st.fs
        ["1:0:1:1:1:1:0:0:0:0 X a"]).st.removed = 1 := by
  refine ⟨rfl, rfl, rfl⟩

/-! ## Claim C7: unparseable numeric fields -/

/-- C7 (counterexample): with addfold active, a record whose field[0] is
not numeric does not merely fail that record with a report: makeLinks
raises ValueError, the run aborts, and the following well-formed record
is never processed (no link is made for it). -/
theorem c7_counterexample :
    (fullRun ⟨false, false, false, true, false, false, false⟩
        [("a", ("a.png", (1, 10)))] allOk []
        ["x:0:1 A a", "1:0:16:1:1:1:0:0:0:0 X a"]).err =
      some (.expandErr .valueError) ∧
    (fullRun ⟨false, false, false, true, false, false, false⟩
        [("a", ("a.png", (1, 10)))] allOk []
        ["x:0:1 A a", "1:0:16:1:1:1:0:0:0:0 X a"]).st.piconLinks = [] ∧
    (fullRun ⟨false, false, false, true, false, false, false⟩
        [("a", ("a.png", (1, 10)))] allOk []
        ["x:0:1 A a", "1:0:16:1:1:1:0:0:0:0 X a"]).st.linksMade = 0 := by
  refine ⟨rfl, rfl, rfl⟩

/-- C7 (amended): a record line with three fields whose field[0] fails
int() while fold or addfold is active makes makeLinks raise ValueError:
the state is left as it was before the record, the error propagates out
of the line loop uncaught, and no later line is processed.  (A malformed
field count, by contrast, is logged and skipped with processing
continuing; see the tooMany / tooFew branches of processLine.) -/
theorem c7_parse_failure_aborts (o : Options) (pf : PiconFiles) (failAt : Nat → Bool)
    (st : St) (line : String) (ls : List String)
    (servRef serviceName picon f0 : String)
    (hwords : pyWords (rstrip (stripComment line)) = [servRef, serviceName, picon])
    (hhead : ((pySplitColon servRef).take 10).get? 0 = some f0)
    (hbad : pyIntDec f0 = none)
    (hrule : o.addfold = true ∨ o.fold = true) :
    runLines o pf failAt st (line :: ls) = (st, some .valueError) := by
  have hnb : rstrip (stripComment line) ≠ "" := by
    intro h
    rw [h] at hwords
    have h0 : ([] : List String) = [servRef, serviceName, picon] := hwords
    exact List.noConfusion h0
  have hget : pyGet ((pySplitColon servRef).take 10) 0 = .ok f0 := by
    unfold pyGet
    rw [hhead]
  have hint : pyInt f0 = .error .valueError := by
    unfold pyInt
    rw [hbad]
  have haferr : o.addfold = true →
      expandAddfold o st.fold_var ((pySplitColon servRef).take 10) = .error .valueError := by
    intro haf
    unfold expandAddfold
    rw [haf]
    simp only [if_true, hget, hint]
  have hexp : expandServRefs o st.fold_var ((pySplitColon servRef).take 10) serviceName =
      .error .valueError := by
    by_cases haf : o.addfold = true
    · simp [expandServRefs, haferr haf]
    · have haf' : o.addfold = false := by
        cases h : o.addfold
        · rfl
        · exact absurd h haf
      have hf : o.fold = true := by
        rcases hrule with h | h
        · exact absurd h haf
        · exact h
      have h1 : expandAddfold o st.fold_var ((pySplitColon servRef).take 10) =
          .ok ([], st.fold_var) := by
        unfold expandAddfold
        rw [haf']
        simp
      have h2 : expandFold o st.fold_var ((pySplitColon servRef).take 10) =
          .error .valueError := by
        unfold expandFold
        rw [hf]
        simp only [if_true, hget, hint]
      simp [expandServRefs, h1, h2]
  simp [runLines, processLine, processRecord, hnb, hwords, hexp]

/-- C7 witness: the concrete bad record aborts the line loop with
ValueError and leaves the state untouched. -/
theorem c7_parse_failure_aborts_witness :
    runLines ⟨false, false, false, true, false, false, false⟩ [("a", ("a.png", (1, 10)))]
        allOk ⟨[], [], [], [], [], 0, 0, 0, [], none⟩ ["x:0:1 A a"] =
      (⟨[], [], [], [], [], 0, 0, 0, [], none⟩, some .valueError) :=
  c7_parse_failure_aborts ⟨false, false, false, true, false, false, false⟩
    [("a", ("a.png", (1, 10)))] allOk ⟨[], [], [], [], [], 0, 0, 0, [], none⟩
    "x:0:1 A a" [] "x:0:1" "A" "a" "x" (by decide) (by decide) (by decide) (Or.inl rfl)

/-! ## Claim C8: duplicate targets within one run -/

/-- C8: when a target name is already claimed in piconLinks, a later
(record, target) pair with the same icon key leaves the state exactly
unchanged (silent deduplication), and one with a different icon key adds
a conflict message and changes nothing else, so the filesystem entry made
for the first claimant stays in place. -/
theorem c8_duplicate_target (o : Options) (pf : PiconFiles) (failAt : Nat → Bool)
    (servRef picon p : String) (st : St) (srp : List String)
    (h : lookupA st.piconLinks (targetName srp) = some p) :
    processTarget o pf failAt servRef picon st srp =
      (if p = picon then st
       else { st with log := .conflict servRef p picon :: st.log }) := by
  simp [processTarget, h]

/-- C8 witness: a state that claimed x.png for icon a; a duplicate with
icon a is a no-op, one with icon b logs exactly one conflict. -/
theorem c8_duplicate_target_witness :
    lookupA ([("x.png", "a")] : List (String × String)) (targetName ["x"]) = some "a" ∧
    processTarget ⟨true, false, false, false, false, false, false⟩ [] allOk "sr" "a"
        ⟨[("x.png", Entry.slink (some (1, 2)))], [], [], [("x.png", "a")], [], 1, 0, 1, [], none⟩
        ["x"] =
      ⟨[("x.png", Entry.slink (some (1, 2)))], [], [], [("x.png", "a")], [], 1, 0, 1, [], none⟩ ∧
    processTarget ⟨true, false, false, false, false, false, false⟩ [] allOk "sr" "b"
        ⟨[("x.png", Entry.slink (some (1, 2)))], [], [], [("x.png", "a")], [], 1, 0, 1, [], none⟩
        ["x"] =
      ⟨[("x.png", Entry.slink (some (1, 2)))], [], [], [("x.png", "a")], [], 1, 0, 1,
        [.conflict "sr" "a" "b"], none⟩ := by
  refine ⟨by decide, ?_, ?_⟩
  · rw [c8_duplicate_target _ _ _ _ _ "a" _ _ (by decide)]
    decide
  · rw [c8_duplicate_target _ _ _ _ _ "a" _ _ (by decide)]
    decide

/-! ## Claim C9: ambiguous base names in the inventory scan -/

/-- C9 (counterexample): scanning abc_sbs.png (which claims key abc) and
then abc.png leaves abc owned by the earlier file, but prints nothing:
the log of the scan is empty, against the claim that the ambiguity is
logged. -/
theorem c9_counterexample :
    makePiconFileList [("abc_sbs.png", .image (1, 1)), ("abc.png", .image (1, 2))] =
      ([("abc", ("abc_sbs.png", (1, 1)))], []) := by
  rfl

/-- C9 (amended): when a scanned image's base name carries no recognized
source-indicator suffix and that base name is already claimed as a key,
the scan step keeps the earlier entry and emits no message at all. -/
theorem c9_ambiguous_basename_kept_silent (files : PiconFiles) (log : List Msg)
    (piconName basename : String) (ident : Ident) (v : String × Ident)
    (hsplit : splitext piconName = (basename, ".png"))
    (hnosuf : hasSrcSuffix basename = false)
    (hclaimed : lookupA files basename = some v) :
    piconListStep (files, log) (piconName, .image ident) = (files, log) :=
  piconListStep_no_suffix_claimed files log piconName basename ident v hsplit hnosuf hclaimed

/-- C9 witness: the concrete ambiguous pair. -/
theorem c9_ambiguous_basename_kept_silent_witness :
    splitext "abc.png" = ("abc", ".png") ∧
    hasSrcSuffix "abc" = false ∧
    lookupA [("abc", ("abc_sbs.png", ((1 : Nat), (1 : Nat))))] "abc" = some ("abc_sbs.png", (1, 1)) ∧
    piconListStep ([("abc", ("abc_sbs.png", (1, 1)))], []) ("abc.png", .image (1, 2)) =
      ([("abc", ("abc_sbs.png", (1, 1)))], []) :=
  ⟨by decide, by decide, by decide,
   c9_ambiguous_basename_kept_silent [("abc", ("abc_sbs.png", (1, 1)))] []
     "abc.png" "abc" (1, 2) ("abc_sbs.png", (1, 1))
     (by decide) (by decide) (by decide)⟩

/-! ## Claim C10: a failed link creation leaves the target unclaimed -/

/-- C10: processing an unclaimed target whose icon is in inventory, that
is no override and has no baseline entry, with a failing link creation:
the target stays unclaimed in piconLinks and no conflict is logged; a
later record expanding to the same target name is then processed as an
unclaimed target again — a new creation attempt is made (linksMade grows,
and with the second attempt succeeding the link is created and claimed),
not reported as a duplicate-target conflict. -/
theorem c10_failed_link_not_claimed
    (o : Options) (pf : PiconFiles) (failAt : Nat → Bool)
    (servRef picon servRef' picon' piconName piconName' : String)
    (piconRef piconRef' : Ident) (st : St) (srp srp' : List String)
    (hname : targetName srp' = targetName srp)
    (hun : lookupA st.piconLinks (targetName srp) = none)
    (hpf : lookupA pf picon = some (piconName, piconRef))
    (hpf' : lookupA pf picon' = some (piconName', piconRef'))
    (hov : refType st.fs (targetName srp) ≠ .isFile)
    (hov2 : (targetName srp) ∉ st.overrides)
    (horig : lookupA st.origPiconLinks (targetName srp) = none)
    (hfail : failAt st.attempts = true)
    (hok2 : failAt (st.attempts + 1) = false) :
    lookupA (processTarget o pf failAt servRef picon st srp).piconLinks
        (targetName srp) = none ∧
    conflictCount (processTarget o pf failAt servRef picon st srp).log =
        conflictCount st.log ∧
    lookupA (processTarget o pf failAt servRef' picon'
        (processTarget o pf failAt servRef picon st srp) srp').piconLinks
        (targetName srp) = some picon' ∧
    (processTarget o pf failAt servRef' picon'
        (processTarget o pf failAt servRef picon st srp) srp').linksMade =
      (processTarget o pf failAt servRef picon st srp).linksMade + 1 ∧
    lookupA (processTarget o pf failAt servRef' picon'
        (processTarget o pf failAt servRef picon st srp) srp').fs
        (targetName srp) = some (mkLinkEntry o.useHardLinks piconRef') ∧
    conflictCount (processTarget o pf failAt servRef' picon'
        (processTarget o pf failAt servRef picon st srp) srp').log =
      conflictCount st.log := by
  have hovh : ¬ overrideHit st (targetName srp) := by
    rintro ⟨hex, hmem | hfile⟩
    · exact hov2 hmem
    · exact hov hfile
  have hfsnone : lookupA (linkFailState piconName (targetName srp) st).fs (targetName srp) =
      none := by
    show lookupA (if pathExists st.fs (targetName srp) || pathLexists st.fs (targetName srp)
      then fsErase st.fs (targetName srp) else st.fs) (targetName srp) = none
    rcases hh : lookupA st.fs (targetName srp) with _ | e
    · have hex : pathExists st.fs (targetName srp) = false := by
        unfold pathExists
        rw [hh]
      have hlex : pathLexists st.fs (targetName srp) = false := by
        unfold pathLexists
        rw [hh]
        rfl
      rw [hex, hlex]
      simpa using hh
    · have hlex : pathLexists st.fs (targetName srp) = true := by
        unfold pathLexists
        rw [hh]
        rfl
      rw [hlex]
      simp [fsErase, lookupA_eraseA_self]
  rw [processTarget_of_createfail o pf failAt servRef picon piconName piconRef st srp
    hun hovh hpf horig hfail]
  have h1 : lookupA (noPiconReport picon servRef
      (linkFailState piconName (targetName srp) st)).piconLinks (targetName srp) = none := by
    rw [noPiconReport_piconLinks]
    exact hun
  have h2 : conflictCount (noPiconReport picon servRef
      (linkFailState piconName (targetName srp) st)).log = conflictCount st.log := by
    rw [noPiconReport_conflictCount]
    show conflictCount (Msg.linkFailed piconName (targetName srp) :: st.log) = conflictCount st.log
    simp [conflictCount, isConflictMsg]
  have hun' : lookupA (noPiconReport picon servRef
      (linkFailState piconName (targetName srp) st)).piconLinks (targetName srp') = none := by
    rw [hname]
    exact h1
  have hov' : ¬ overrideHit (noPiconReport picon servRef
      (linkFailState piconName (targetName srp) st)) (targetName srp') := by
    rintro ⟨hex, _⟩
    rw [hname] at hex
    unfold pathExists at hex
    rw [noPiconReport_fs] at hex
    rw [hfsnone] at hex
    exact Bool.noConfusion hex
  have horig' : ∀ r, lookupA (noPiconReport picon servRef
      (linkFailState piconName (targetName srp) st)).origPiconLinks
      (targetName srp') = some r → r ≠ piconRef' := by
    intro r hr
    rw [noPiconReport_origPiconLinks, hname] at hr
    rw [show (linkFailState piconName (targetName srp) st).origPiconLinks =
      st.origPiconLinks from rfl] at hr
    rw [horig] at hr
    exact Option.noConfusion hr
  have hfail' : failAt (noPiconReport picon servRef
      (linkFailState piconName (targetName srp) st)).attempts = false := by
    rw [noPiconReport_attempts]
    rw [show (linkFailState piconName (targetName srp) st).attempts = st.attempts + 1 from rfl]
    exact hok2
  rw [processTarget_of_create o pf failAt servRef' picon' piconName' piconRef'
    (noPiconReport picon servRef (linkFailState piconName (targetName srp) st)) srp'
    hun' hov' hpf' horig' hfail']
  refine ⟨h1, h2, ?_, ?_, ?_, ?_⟩
  · show lookupA (setA (noPiconReport picon servRef
      (linkFailState piconName (targetName srp) st)).piconLinks (targetName srp') picon')
      (targetName srp) = some picon'
    rw [hname]
    exact lookupA_setA_self _ _ _
  · rfl
  · show lookupA (fsSet _ (targetName srp') (mkLinkEntry o.useHardLinks piconRef'))
      (targetName srp) = some (mkLinkEntry o.useHardLinks piconRef')
    rw [hname]
    exact lookupA_setA_self _ _ _
  · exact h2

/-- C10 witness: with the first creation attempt failing and the second
succeeding, the second record claims the target that the first record
failed to link. -/
theorem c10_failed_link_not_claimed_witness :
    lookupA (processTarget ⟨true, false, false, false, false, false, false⟩
        [("a", ("a.png", (1, 10))), ("b", ("b.png", (1, 11)))] (fun k => decide (k = 0))
        "r2" "b"
        (processTarget ⟨true, false, false, false, false, false, false⟩
          [("a", ("a.png", (1, 10))), ("b", ("b.png", (1, 11)))] (fun k => decide (k = 0))
          "r1" "a" ⟨[], [], [], [], [], 0, 0, 0, [], none⟩ ["x"]) ["x"]).piconLinks
      (targetName ["x"]) = some "b" :=
  (c10_failed_link_not_claimed ⟨true, false, false, false, false, false, false⟩
    [("a", ("a.png", (1, 10))), ("b", ("b.png", (1, 11)))] (fun k => decide (k = 0))
    "r1" "a" "r2" "b" "a.png" "b.png" (1, 10) (1, 11)
    ⟨[], [], [], [], [], 0, 0, 0, [], none⟩ ["x"] ["x"]
    rfl (by decide) (by decide) (by decide) (by decide) (by decide) (by decide)
    (by decide) (by decide)).2.2.1

end MkLinks
